import Mathlib

/-
Verification of the change-feed and replication core of sqlalchemy-couchdb
(`sqlalchemy_couchdb/changes.py` and `sqlalchemy_couchdb/replication.py`),
as described by the design specification and exercised by
`examples/changes_replication_demo.py`.

The implementation modules themselves are not present in this source tree;
every definition below whose doc comment starts with `Modelled from the spec:`
is a shallow embedding built from the specification's words (sections 3-8 of
the design document), with the demo example as a guide to the API surface.
Sequence tokens are modelled as natural numbers (the spec only requires an
opaque, totally ordered, monotonically non-decreasing token), revisions as
natural-number generation counters (the spec only requires an opaque version
token used for conflict detection), and wall-clock fields (`duration`,
`docsPerSecond`) are outside the model.
-/

namespace CouchRep

/-- Document identifiers. -/
abbrev DocId := String

/-- Modelled from the spec: a scalar field value of a document body.  The
`LATEST_WINS` policy "compares a designated timestamp field on both bodies
(string or numeric, caller-specified comparator)", so values are strings or
integers. -/
inductive Val where
  | str : String → Val
  | num : Int → Val
deriving DecidableEq, Repr

/-- Modelled from the spec: a document body, an ordered association list of
named fields. -/
abbrev DocBody := List (String × Val)

/-- First-match lookup in an association list keyed by strings. -/
def lookupA {α : Type} (l : List (String × α)) (id : String) : Option α :=
  (l.find? (fun p => p.1 == id)).map (fun p => p.2)

/-- Field access on a document body (used by `LATEST_WINS` for the designated
timestamp field). -/
def getField (b : DocBody) (k : String) : Option Val :=
  lookupA b k


/-- Modelled from the spec: a document as stored, carrying its body and its
revision token ("an opaque version identifier attached to a document, used for
optimistic-concurrency conflict detection"), modelled as a generation
counter. -/
structure StoredDoc where
  body : DocBody
  rev : Nat
deriving DecidableEq, Repr

/-- Modelled from the spec: one mutation event of the change feed: `sequence`
(store-assigned ordered token), `documentId`, `revision`, `deleted`, and the
optional full body. -/
structure Change where
  seq : Nat
  id : DocId
  rev : Nat
  deleted : Bool
  doc : Option DocBody
deriving DecidableEq, Repr

/-- Modelled from the spec: the external `DocumentStore` collaborator, holding
its documents (keyed by id, in creation order) together with its change log
and the last assigned sequence token.  Every mutation appends one change with
the next sequence token, giving the monotone change feed of section 3. -/
structure Store where
  docs : List (DocId × StoredDoc)
  changes : List Change
  lastSeq : Nat
deriving DecidableEq, Repr

def Store.empty : Store := ⟨[], [], 0⟩

/-- Modelled from the spec: `getDocument(id) -> document | NotFound`. -/
def Store.getDocument (s : Store) (id : DocId) : Option StoredDoc :=
  lookupA s.docs id

/-- Modelled from the spec: `listDocumentIds` produces the store's document
ids (a finite sequence). -/
def Store.listDocumentIds (s : Store) : List DocId :=
  s.docs.map (fun p => p.1)

/-- Replace the stored document under `id` (all entries carrying that key). -/
def updateA (l : List (DocId × StoredDoc)) (id : DocId) (d : StoredDoc) :
    List (DocId × StoredDoc) :=
  l.map (fun p => if p.1 == id then (p.1, d) else p)

/-- Modelled from the spec: `putDocument`/the per-document effect of
`bulkWrite`.  A fresh id is created at revision 1; re-writing the current body
is accepted without producing a new revision (a no-op write of the revision
the target already has); writing a different body over an existing document
produces the successor revision.  Each revision-changing write appends one
change record with the next sequence token.  Returns the store and the
resulting revision of the document. -/
def Store.putWithRev (s : Store) (id : DocId) (b : DocBody) : Store × Nat :=
  match s.getDocument id with
  | none =>
      (⟨s.docs ++ [(id, ⟨b, 1⟩)],
        s.changes ++ [⟨s.lastSeq + 1, id, 1, false, some b⟩],
        s.lastSeq + 1⟩, 1)
  | some ex =>
      if ex.body = b then (s, ex.rev)
      else
        (⟨updateA s.docs id ⟨b, ex.rev + 1⟩,
          s.changes ++ [⟨s.lastSeq + 1, id, ex.rev + 1, false, some b⟩],
          s.lastSeq + 1⟩, ex.rev + 1)

def Store.put (s : Store) (id : DocId) (b : DocBody) : Store :=
  (s.putWithRev id b).1

/-- A fresh store holding exactly the given documents, built by creating each
one in order (as the demo's `create_document` loops do). -/
def Store.ofDocs (l : List (DocId × DocBody)) : Store :=
  l.foldl (fun s p => s.put p.1 p.2) Store.empty

/-- The change records produced by creating the given documents in order,
starting after sequence token `base`. -/
def mkChanges (base : Nat) : List (DocId × DocBody) → List Change
  | [] => []
  | p :: r => ⟨base + 1, p.1, 1, false, some p.2⟩ :: mkChanges (base + 1) r

/-- The store obtained from `t` by creating the given fresh documents in
order. -/
def Store.bulkFresh (t : Store) (l : List (DocId × DocBody)) : Store :=
  ⟨t.docs ++ l.map (fun p => (p.1, ⟨p.2, 1⟩)),
   t.changes ++ mkChanges t.lastSeq l,
   t.lastSeq + l.length⟩


/-- Modelled from the spec: the result of a pull-mode `getChanges` call —
"results: [Change]" plus `lastSeq`. -/
structure ChangesResult where
  results : List Change
  last_seq : Nat
deriving DecidableEq, Repr

/-- Modelled from the spec: the finite (`NORMAL`) change feed read: all
changes with sequence token greater than `since`, truncated to `limit`, with
`lastSeq` the token of the last delivered change (or `since` when nothing is
delivered). -/
def Store.getChanges (s : Store) (since limit : Nat) : ChangesResult :=
  let res := (s.changes.filter (fun c => decide (since < c.seq))).take limit
  ⟨res, ((res.getLast?).map (fun c => c.seq)).getD since⟩

/-- Modelled from the spec: `ChangesListener` wraps a store's change feed with
callback slots; its pull mode `getChanges(since, limit)` is a synchronous,
finite read with no background activity (a pure function here). -/
structure ChangesListener where
  client : Store

def ChangesListener.get_changes (L : ChangesListener) (since limit : Nat) :
    ChangesResult :=
  L.client.getChanges since limit

/-- Modelled from the spec: the outcome of conflict resolution — "produce the
body to persist, or a sentinel meaning skip write"; a failing custom resolver
is recorded as a failure. -/
inductive Resolution where
  | persist : DocBody → Resolution
  | skip : Resolution
  | fail : String → Resolution

/-- Modelled from the spec: the closed set of conflict policies
`SOURCE_WINS | TARGET_WINS | LATEST_WINS | CUSTOM(fn)`. -/
inductive ConflictStrategy where
  | source_wins : ConflictStrategy
  | target_wins : ConflictStrategy
  | latest_wins : ConflictStrategy
  | custom : (DocBody → DocBody → Resolution) → ConflictStrategy

/-- Modelled from the spec: a configured `ConflictResolver`: the strategy, the
designated timestamp-bearing field for `LATEST_WINS` and the caller-specified
comparator on field values. -/
structure ConflictResolver where
  strategy : ConflictStrategy
  tsField : String
  lt : Val → Val → Bool

/-- Modelled from the spec: given `(incoming, existingOnTarget)` produce the
resolution.  `SOURCE_WINS` always returns `incoming`; `TARGET_WINS` returns
the skip sentinel; `LATEST_WINS` compares the designated timestamp field and
returns whichever body has the greater value, ties (and missing fields)
favoring `incoming`; `CUSTOM` delegates to the caller-supplied function. -/
def resolve (cfg : ConflictResolver) (incoming existing : DocBody) :
    Resolution :=
  match cfg.strategy with
  | .source_wins => .persist incoming
  | .target_wins => .skip
  | .latest_wins =>
      match getField incoming cfg.tsField, getField existing cfg.tsField with
      | some ti, some te =>
          if cfg.lt ti te then .persist existing else .persist incoming
      | _, _ => .persist incoming
  | .custom f => f incoming existing

/-- Modelled from the spec: replication options
`{batchSize, filterFunction?, conflictResolver?}`. -/
structure ReplicatorOptions where
  batchSize : Nat
  filterFn : Option (DocBody → Bool)
  resolver : Option ConflictResolver

def defaultOpts : ReplicatorOptions := ⟨100, none, none⟩

def passesFilter (opts : ReplicatorOptions) (b : DocBody) : Bool :=
  match opts.filterFn with
  | none => true
  | some f => f b

/-- Modelled from the spec: the `ReplicationStats` accumulator (the wall-clock
`duration`/`docsPerSecond` fields are outside the model). -/
structure ReplicationStats where
  docs_read : Nat
  docs_written : Nat
  doc_write_failures : Nat
deriving DecidableEq, Repr

def zeroStats : ReplicationStats := ⟨0, 0, 0⟩

def addStats (a b : ReplicationStats) : ReplicationStats :=
  ⟨a.docs_read + b.docs_read, a.docs_written + b.docs_written,
   a.doc_write_failures + b.doc_write_failures⟩

/-- Modelled from the spec: `ReplicationResult` — stats plus the ordered list
of `(documentId, error)` failures. -/
structure ReplicationResult where
  stats : ReplicationStats
  failures : List (DocId × String)
deriving DecidableEq, Repr

/-- The running state of one replication pass: the target store, the
accumulated counters and failure list, and the ledger entries
`(documentId, revision-on-target)` recorded for each replicated write (used by
the bidirectional replicator's loop prevention). -/
structure RepState where
  target : Store
  docs_read : Nat
  docs_written : Nat
  doc_write_failures : Nat
  failures : List (DocId × String)
  newLedger : List (DocId × Nat)
deriving Repr

def initState (tgt : Store) : RepState := ⟨tgt, 0, 0, 0, [], []⟩

def mkResult (st : RepState) : ReplicationResult :=
  ⟨⟨st.docs_read, st.docs_written, st.doc_write_failures⟩, st.failures⟩

/-- Modelled from the spec: one document of a bulk write.  A write the target
accepts counts toward `docsWritten`; a write rejected because the target holds
a conflicting revision is routed to the configured resolver, or, with no
resolver configured, recorded as a failure with the target left untouched;
one write failure never aborts the batch or the run. -/
def writeStep (opts : ReplicatorOptions) (st : RepState) (id : DocId)
    (body : DocBody) : RepState :=
  match st.target.getDocument id with
  | none =>
      let tr := st.target.putWithRev id body
      { st with
        target := tr.1
        docs_written := st.docs_written + 1
        newLedger := st.newLedger ++ [(id, tr.2)] }
  | some ex =>
      if ex.body = body then
        { st with
          docs_written := st.docs_written + 1
          newLedger := st.newLedger ++ [(id, ex.rev)] }
      else
        match opts.resolver with
        | none =>
            { st with
              doc_write_failures := st.doc_write_failures + 1
              failures := st.failures ++ [(id, "conflict")] }
        | some cfg =>
            match resolve cfg body ex.body with
            | .persist b =>
                let tr := st.target.putWithRev id b
                { st with
                  target := tr.1
                  docs_written := st.docs_written + 1
                  newLedger := st.newLedger ++ [(id, tr.2)] }
            | .skip => st
            | .fail e =>
                { st with
                  doc_write_failures := st.doc_write_failures + 1
                  failures := st.failures ++ [(id, e)] }

/-- Modelled from the spec: processing one enumerated document id — read the
body from the source (every enumerated document counts toward `docsRead`),
apply the filter if present (discarded documents are not written), then write
to the target. -/
def processDoc (src : Store) (opts : ReplicatorOptions) (st : RepState)
    (id : DocId) : RepState :=
  let st' := { st with docs_read := st.docs_read + 1 }
  match src.getDocument id with
  | none => st'
  | some d =>
      if passesFilter opts d.body then writeStep opts st' id d.body else st'

/-- Modelled from the spec: processing one change record during an incremental
(change-driven) run.  Identical to `processDoc` on the changed document's id,
except that a document whose current source revision is recorded in
`skipLedger` — i.e. whose latest revision originated from the reverse
replication direction — is skipped (loop prevention). -/
def processChange (src : Store) (opts : ReplicatorOptions)
    (skipLedger : List (DocId × Nat)) (st : RepState) (c : Change) : RepState :=
  let st' := { st with docs_read := st.docs_read + 1 }
  match src.getDocument c.id with
  | none => st'
  | some d =>
      if (c.id, d.rev) ∈ skipLedger then st'
      else if passesFilter opts d.body then writeStep opts st' c.id d.body
      else st'

/-- Split a list into batches of `n` (batches of 1 for the degenerate
`n = 0`). -/
def chunkList (n : Nat) : List α → List (List α)
  | [] => []
  | x :: xs => (x :: xs.take (n - 1)) :: chunkList n (xs.drop (n - 1))
termination_by l => l.length
decreasing_by simp [List.length_drop]; omega

/-- Modelled from the spec: one-shot `replicate(source, target, options)`:
enumerate all source document ids, process them in batches of `batchSize`
strictly in enumeration order (the bulk write of a batch is modelled as its
per-document writes in order), and accumulate stats across batches.  Returns
the updated target together with the `ReplicationResult`. -/
def replicate (src tgt : Store) (opts : ReplicatorOptions) :
    Store × ReplicationResult :=
  let st := (chunkList opts.batchSize src.listDocumentIds).foldl
    (fun st batch => batch.foldl (processDoc src opts) st) (initState tgt)
  (st.target, mkResult st)

/-- Modelled from the spec: an incremental run — "the same algorithm applies
with the enumeration source swapped": enumerate the source's changes since the
given sequence token, with loop prevention against `skipLedger`. -/
def replicatePass (src tgt : Store) (since : Nat)
    (skipLedger : List (DocId × Nat)) (opts : ReplicatorOptions) : RepState :=
  let cs := src.changes.filter (fun c => decide (since < c.seq))
  (chunkList opts.batchSize cs).foldl
    (fun st batch => batch.foldl (processChange src opts skipLedger) st)
    (initState tgt)

/-- Modelled from the spec: the state of a `BidirectionalReplicator`: the two
stores, the last processed sequence token per direction, the per-direction
origin ledgers keyed by document id + revision (the loop-prevention mechanism
chosen per section 4.5's open question), and the per-direction stats. -/
structure BidirState where
  a : Store
  b : Store
  sinceA : Nat
  sinceB : Nat
  ledgerAB : List (DocId × Nat)
  ledgerBA : List (DocId × Nat)
  statsAB : ReplicationStats
  statsBA : ReplicationStats

def BidirState.start (a b : Store) : BidirState :=
  ⟨a, b, 0, 0, [], [], zeroStats, zeroStats⟩

/-- Modelled from the spec: one paired pass of the bidirectional replicator:
an incremental A→B run (skipping documents whose latest revision originated
from B→A), then an incremental B→A run over the updated B (skipping documents
whose latest revision originated from A→B), updating the cursors, ledgers and
per-direction stats. -/
def runPass (st : BidirState) (opts : ReplicatorOptions) :
    BidirState × ReplicationResult × ReplicationResult :=
  let rab := replicatePass st.a st.b st.sinceA st.ledgerBA opts
  let b' := rab.target
  let rba := replicatePass b' st.a st.sinceB (st.ledgerAB ++ rab.newLedger) opts
  (⟨rba.target, b', st.a.lastSeq, b'.lastSeq,
    st.ledgerAB ++ rab.newLedger, st.ledgerBA ++ rba.newLedger,
    addStats st.statsAB (mkResult rab).stats,
    addStats st.statsBA (mkResult rba).stats⟩,
   mkResult rab, mkResult rba)

/-- Modelled from the spec: the `BidirectionalReplicator` object of the demo:
two stores, a continuous flag, and the paired-pass state. -/
structure BidirectionalReplicator where
  state : BidirState
  opts : ReplicatorOptions
  continuous : Bool

def BidirectionalReplicator.make (a b : Store) (continuous : Bool) :
    BidirectionalReplicator :=
  ⟨BidirState.start a b, defaultOpts, continuous⟩

/-- Modelled from the spec: `start()` — with `continuous = false` it runs the
single paired pass synchronously and returns its two results; with
`continuous = true` the passes run in background listeners (outside this
model), so no synchronous results are returned. -/
def BidirectionalReplicator.start (r : BidirectionalReplicator) :
    BidirectionalReplicator × Option (ReplicationResult × ReplicationResult) :=
  if r.continuous then (r, none)
  else
    let p := runPass r.state r.opts
    ({ r with state := p.1 }, some (p.2.1, p.2.2))

/-- Modelled from the spec: `getStats() -> {aToB: ..., bToA: ...}` — a mapping
with exactly the keys `a_to_b` and `b_to_a` (as read by the demo). -/
def BidirectionalReplicator.get_stats (r : BidirectionalReplicator) :
    List (String × ReplicationStats) :=
  [("a_to_b", r.state.statsAB), ("b_to_a", r.state.statsBA)]

/-- Modelled from the spec: the `ChangesFeed` fan-out manager's buffering
state — a fixed-capacity circular buffer of the most recent `buffer_size`
changes (subscriber dispatch carries no state of its own and is outside this
value model). -/
structure ChangesFeed where
  buffer_size : Nat
  buffer : List Change
deriving DecidableEq, Repr

def ChangesFeed.make (n : Nat) : ChangesFeed := ⟨n, []⟩

/-- Modelled from the spec: "each incoming Change is appended to the buffer
(evicting the oldest entry when full)". -/
def ChangesFeed.handleChange (f : ChangesFeed) (c : Change) : ChangesFeed :=
  let b := f.buffer ++ [c]
  { f with buffer := b.drop (b.length - f.buffer_size) }

/-- Deliver a sequence of incoming changes in order. -/
def ChangesFeed.deliverAll (f : ChangesFeed) (cs : List Change) : ChangesFeed :=
  cs.foldl ChangesFeed.handleChange f

/-- Modelled from the spec: `getBuffer()` returns a snapshot (copy) of the
current buffer contents; in this value model the returned list is immutable by
construction, so later deliveries cannot mutate a previously returned
snapshot. -/
def ChangesFeed.get_buffer (f : ChangesFeed) : List Change := f.buffer

/-- Modelled from the spec: the observable actions of a started continuous
listener: a callback delivery, the entry into `stop()` (signalling
cancellation), the background unit exiting, and `stop()` returning. -/
inductive LAct where
  | deliver : Change → LAct
  | stopBegin : LAct
  | bgExit : LAct
  | stopEnd : LAct
deriving DecidableEq, Repr

/-- Modelled from the spec: the lifecycle state of a started continuous
listener: whether the background execution unit is still running, whether
cancellation has been signalled, and how many `onChange` callbacks have
fired. -/
structure ListenerState where
  running : Bool
  stopRequested : Bool
  callbackCount : Nat
deriving DecidableEq, Repr

def ListenerState.started : ListenerState := ⟨true, false, 0⟩

/-- Modelled from the spec: one observable step.  Callbacks are invoked only
by the live background unit; `stop()` signals cancellation (idempotently) and
its return is enabled only once the background unit has exited — "stop()
signals cancellation and blocks until the background unit has fully
exited". -/
def lstep (s : ListenerState) (a : LAct) : Option ListenerState :=
  match a with
  | .deliver _ =>
      if s.running then some { s with callbackCount := s.callbackCount + 1 }
      else none
  | .stopBegin => some { s with stopRequested := true }
  | .bgExit => if s.running then some { s with running := false } else none
  | .stopEnd =>
      if s.stopRequested && !s.running then some s else none

/-- Run a trace of observable actions, rejecting any action not enabled in the
current state. -/
def runTrace (s : ListenerState) : List LAct → Option ListenerState
  | [] => some s
  | a :: as =>
      match lstep s a with
      | none => none
      | some s' => runTrace s' as

/-- Options whose conflict policy, if any, is one of the three fixed
strategies (not a caller-supplied `CUSTOM` function). -/
def nonCustom (opts : ReplicatorOptions) : Prop :=
  match opts.resolver with
  | none => True
  | some cfg =>
      match cfg.strategy with
      | .custom _ => False
      | _ => True

/-- A resolver configuration whose policy is one of the three fixed
strategies. -/
def cfgFixed (cfg : ConflictResolver) : Prop :=
  match cfg.strategy with
  | ConflictStrategy.custom _ => False
  | _ => True

/-- Well-formedness of a store's change log: sequence tokens are the
consecutive tokens `1, 2, ...` (as produced by the store's own mutation
operations). -/
def ChangesWF (s : Store) : Prop :=
  s.changes.map (fun c => c.seq) = List.range' 1 s.changes.length

/-- A concrete comparator on field values (numbers and strings by their
natural orders), usable as the caller-specified `LATEST_WINS` comparator. -/
def Val.ltb : Val → Val → Bool
  | .num a, .num b => decide (a < b)
  | .str a, .str b => decide (a < b)
  | _, _ => false

/-! ### Association-list and store lemmas. -/

@[simp] theorem lookupA_nil {α : Type} (id : String) :
    lookupA ([] : List (String × α)) id = none := rfl

theorem lookupA_cons {α : Type} (k : String) (v : α) (r : List (String × α))
    (id : String) :
    lookupA ((k, v) :: r) id = if k = id then some v else lookupA r id := by
  by_cases h : k = id <;> simp [lookupA, List.find?_cons, h]

theorem lookupA_append_of_none {α : Type} {l1 : List (String × α)}
    (l2 : List (String × α)) {id : String} (h : lookupA l1 id = none) :
    lookupA (l1 ++ l2) id = lookupA l2 id := by
  induction l1 with
  | nil => simp
  | cons p r ih =>
    rcases p with ⟨k, v⟩
    rw [lookupA_cons] at h
    by_cases hk : k = id
    · simp [hk] at h
    · rw [List.cons_append, lookupA_cons, if_neg hk]
      exact ih (by simpa [hk] using h)

theorem lookupA_append_of_some {α : Type} {l1 : List (String × α)}
    (l2 : List (String × α)) {id : String} {v : α} (h : lookupA l1 id = some v) :
    lookupA (l1 ++ l2) id = some v := by
  induction l1 with
  | nil => simp [lookupA] at h
  | cons p r ih =>
    rcases p with ⟨k, w⟩
    rw [lookupA_cons] at h
    by_cases hk : k = id
    · rw [if_pos hk] at h
      rw [List.cons_append, lookupA_cons, if_pos hk]
      exact h
    · rw [if_neg hk] at h
      rw [List.cons_append, lookupA_cons, if_neg hk]
      exact ih h

theorem lookupA_eq_none_iff {α : Type} {l : List (String × α)} {id : String} :
    lookupA l id = none ↔ ∀ p ∈ l, p.1 ≠ id := by
  induction l with
  | nil => simp
  | cons p r ih =>
    rcases p with ⟨k, v⟩
    rw [lookupA_cons]
    by_cases hk : k = id
    · simp [hk]
    · simp [hk, ih]

@[simp] theorem mkChanges_nil (base : Nat) : mkChanges base [] = [] := rfl

@[simp] theorem mkChanges_cons (base : Nat) (p : DocId × DocBody)
    (r : List (DocId × DocBody)) :
    mkChanges base (p :: r) =
      ⟨base + 1, p.1, 1, false, some p.2⟩ :: mkChanges (base + 1) r := rfl

theorem mkChanges_length (base : Nat) (l : List (DocId × DocBody)) :
    (mkChanges base l).length = l.length := by
  induction l generalizing base with
  | nil => rfl
  | cons p r ih => simp [ih]

theorem mem_mkChanges {base : Nat} {l : List (DocId × DocBody)} {c : Change}
    (h : c ∈ mkChanges base l) :
    ∃ p ∈ l, c.id = p.1 ∧ c.rev = 1 ∧ c.doc = some p.2 ∧
      base < c.seq ∧ c.seq ≤ base + l.length := by
  induction l generalizing base with
  | nil => simp at h
  | cons p r ih =>
    rw [mkChanges_cons] at h
    rcases List.mem_cons.1 h with h | h
    · exact ⟨p, List.mem_cons_self _ _, by simp [h]⟩
    · rcases ih h with ⟨q, hq, h1, h2, h3, h4, h5⟩
      exact ⟨q, List.mem_cons_of_mem _ hq, h1, h2, h3, by omega, by
        simpa [Nat.add_comm, Nat.add_assoc, Nat.add_left_comm] using
          Nat.le_trans h5 (by omega)⟩

theorem getDocument_eq_none_iff {s : Store} {id : DocId} :
    s.getDocument id = none ↔ ∀ p ∈ s.docs, p.1 ≠ id :=
  lookupA_eq_none_iff

/-- Creating a fresh document appends it. -/
theorem put_of_none {s : Store} {id : DocId} (b : DocBody)
    (h : s.getDocument id = none) :
    s.put id b =
      ⟨s.docs ++ [(id, ⟨b, 1⟩)],
       s.changes ++ [⟨s.lastSeq + 1, id, 1, false, some b⟩],
       s.lastSeq + 1⟩ := by
  simp [Store.put, Store.putWithRev, h]

theorem putWithRev_of_none {s : Store} {id : DocId} (b : DocBody)
    (h : s.getDocument id = none) :
    s.putWithRev id b =
      (⟨s.docs ++ [(id, ⟨b, 1⟩)],
        s.changes ++ [⟨s.lastSeq + 1, id, 1, false, some b⟩],
        s.lastSeq + 1⟩, 1) := by
  simp [Store.putWithRev, h]

/-- Re-writing the current body is a no-op. -/
theorem putWithRev_of_same {s : Store} {id : DocId} {ex : StoredDoc}
    (h : s.getDocument id = some ex) (hb : ex.body = b) :
    s.putWithRev id b = (s, ex.rev) := by
  simp [Store.putWithRev, h, hb]

theorem putWithRev_of_diff {s : Store} {id : DocId} {ex : StoredDoc}
    (h : s.getDocument id = some ex) (hb : ex.body ≠ b) :
    s.putWithRev id b =
      (⟨updateA s.docs id ⟨b, ex.rev + 1⟩,
        s.changes ++ [⟨s.lastSeq + 1, id, ex.rev + 1, false, some b⟩],
        s.lastSeq + 1⟩, ex.rev + 1) := by
  simp [Store.putWithRev, h, hb]

theorem lookupA_updateA_same {l : List (DocId × StoredDoc)} {id : DocId}
    {ex : StoredDoc} (d : StoredDoc) (h : lookupA l id = some ex) :
    lookupA (updateA l id d) id = some d := by
  induction l with
  | nil => simp [lookupA] at h
  | cons p r ih =>
    rcases p with ⟨k, v⟩
    rw [lookupA_cons] at h
    by_cases hk : k = id
    · simp [updateA, hk, lookupA_cons]
    · rw [if_neg hk] at h
      have : (k == id) = false := by simpa using hk
      simp only [updateA, List.map_cons, this, Bool.false_eq_true, if_false]
      rw [lookupA_cons, if_neg hk]
      exact ih h

theorem lookupA_updateA_other {l : List (DocId × StoredDoc)} {id id' : DocId}
    (d : StoredDoc) (h : id' ≠ id) :
    lookupA (updateA l id d) id' = lookupA l id' := by
  induction l with
  | nil => simp [updateA]
  | cons p r ih =>
    rcases p with ⟨k, v⟩
    by_cases hk : k = id
    · have : (k == id) = true := by simpa using hk
      simp only [updateA, List.map_cons, this, if_true]
      rw [lookupA_cons, lookupA_cons, if_neg (by simpa [hk] using h.symm)]
      rw [if_neg (by simpa [hk] using h.symm)]
      exact ih
    · have : (k == id) = false := by simpa using hk
      simp only [updateA, List.map_cons, this, Bool.false_eq_true, if_false]
      rw [lookupA_cons, lookupA_cons]
      by_cases hk' : k = id'
      · simp [hk']
      · rw [if_neg hk', if_neg hk']
        exact ih

theorem updateA_keys (l : List (DocId × StoredDoc)) (id : DocId)
    (d : StoredDoc) :
    (updateA l id d).map (fun p => p.1) = l.map (fun p => p.1) := by
  induction l with
  | nil => rfl
  | cons p r ih =>
    simp only [updateA, List.map_cons] at ih ⊢
    by_cases hk : (p.1 == id) = true
    · rw [if_pos hk]
      exact congrArg (List.cons p.1) ih
    · rw [if_neg hk]
      exact congrArg (List.cons p.1) ih

/-- After a put, looking up the written id yields body `b` (at some
revision). -/
theorem getDocument_put_self (s : Store) (id : DocId) (b : DocBody) :
    ∃ r, (s.put id b).getDocument id = some ⟨b, r⟩ := by
  rcases h : s.getDocument id with _ | ex
  · refine ⟨1, ?_⟩
    rw [put_of_none b h]
    show lookupA (s.docs ++ [(id, ⟨b, 1⟩)]) id = some ⟨b, 1⟩
    rw [lookupA_append_of_none _ h, lookupA_cons, if_pos rfl]
  · by_cases hb : ex.body = b
    · refine ⟨ex.rev, ?_⟩
      have := putWithRev_of_same h hb
      simp only [Store.put, this]
      rw [h]
      cases ex
      simp_all
    · refine ⟨ex.rev + 1, ?_⟩
      have := putWithRev_of_diff h hb
      simp only [Store.put, this]
      exact lookupA_updateA_same _ h

/-- Frame rule: a put touches only the written id. -/
theorem getDocument_put_other (s : Store) {id id' : DocId} (b : DocBody)
    (h : id' ≠ id) :
    (s.put id b).getDocument id' = s.getDocument id' := by
  rcases hg : s.getDocument id with _ | ex
  · rw [put_of_none b hg]
    show lookupA (s.docs ++ [(id, ⟨b, 1⟩)]) id' = lookupA s.docs id'
    rcases hl : lookupA s.docs id' with _ | v
    · rw [lookupA_append_of_none _ hl, lookupA_cons, if_neg (fun hh => h hh.symm)]
      rfl
    · exact lookupA_append_of_some _ hl
  · by_cases hb : ex.body = b
    · simp only [Store.put, putWithRev_of_same hg hb]
    · simp only [Store.put, putWithRev_of_diff hg hb]
      exact lookupA_updateA_other _ h

/-- A put never duplicates ids. -/
theorem put_keys_nodup {s : Store} (id : DocId) (b : DocBody)
    (h : (s.docs.map (fun p => p.1)).Nodup) :
    ((s.put id b).docs.map (fun p => p.1)).Nodup := by
  rcases hg : s.getDocument id with _ | ex
  · rw [put_of_none b hg]
    have hnotin : id ∉ s.docs.map (fun p => p.1) := by
      intro hmem
      rcases List.mem_map.1 hmem with ⟨p, hp, hp1⟩
      exact (getDocument_eq_none_iff.1 hg p hp) hp1
    simp only [List.map_append, List.map_cons, List.map_nil]
    rw [List.nodup_append]
    refine ⟨h, List.nodup_singleton _, ?_⟩
    intro a ha hb2
    simp at hb2
    subst hb2
    exact hnotin ha
  · by_cases hb : ex.body = b
    · simpa only [Store.put, putWithRev_of_same hg hb] using h
    · simp only [Store.put, putWithRev_of_diff hg hb]
      rw [updateA_keys]
      exact h

/-! ### Batching is grouping only: folding over the batches of a list equals
folding over the list itself. -/

theorem foldl_chunkList {α β : Type} (f : β → α → β) (n : Nat) (l : List α) :
    ∀ st : β,
      (chunkList n l).foldl (fun st batch => batch.foldl f st) st =
        l.foldl f st := by
  induction l using chunkList.induct n with
  | case1 => intro st; simp [chunkList]
  | case2 x xs ih =>
    intro st
    rw [show chunkList n (x :: xs) =
      (x :: xs.take (n - 1)) :: chunkList n (xs.drop (n - 1)) from by
        simp [chunkList]]
    rw [List.foldl_cons, ih, List.foldl_cons]
    conv_rhs => rw [← List.take_append_drop (n - 1) xs]
    rw [List.foldl_cons, List.foldl_append]

/-! ### Counting lemmas: every enumerated document counts toward `docsRead`;
failures are recorded in both the counter and the failure list; the run
processes every document regardless of failures. -/

theorem writeStep_docs_read (opts : ReplicatorOptions) (st : RepState)
    (id : DocId) (body : DocBody) :
    (writeStep opts st id body).docs_read = st.docs_read := by
  unfold writeStep
  rcases st.target.getDocument id with _ | ex
  · rfl
  · by_cases hb : ex.body = body
    · simp [hb]
    · rcases hr : opts.resolver with _ | cfg
      · simp [hb, hr]
      · rcases hres : resolve cfg body ex.body with b | _ | e <;>
          simp [hb, hr, hres]

theorem processDoc_docs_read (src : Store) (opts : ReplicatorOptions)
    (st : RepState) (id : DocId) :
    (processDoc src opts st id).docs_read = st.docs_read + 1 := by
  unfold processDoc
  rcases src.getDocument id with _ | d
  · rfl
  · by_cases hf : passesFilter opts d.body
    · simp only [hf, if_true]
      exact writeStep_docs_read _ _ _ _
    · simp [hf]

theorem foldl_processDoc_docs_read (src : Store) (opts : ReplicatorOptions) :
    ∀ (ids : List DocId) (st : RepState),
      (ids.foldl (processDoc src opts) st).docs_read =
        st.docs_read + ids.length := by
  intro ids
  induction ids with
  | nil => intro st; simp
  | cons id rest ih =>
    intro st
    rw [List.foldl_cons, ih, processDoc_docs_read]
    simp [Nat.add_assoc, Nat.add_comm 1 rest.length]

theorem writeStep_failures (opts : ReplicatorOptions) (st : RepState)
    (id : DocId) (body : DocBody)
    (h : st.failures.length = st.doc_write_failures) :
    (writeStep opts st id body).failures.length =
      (writeStep opts st id body).doc_write_failures := by
  unfold writeStep
  rcases st.target.getDocument id with _ | ex
  · simpa using h
  · by_cases hb : ex.body = body
    · simpa [hb] using h
    · rcases hr : opts.resolver with _ | cfg
      · simpa [hb, hr] using h
      · rcases hres : resolve cfg body ex.body with b | _ | e <;>
          simpa [hb, hr, hres] using h

theorem processDoc_failures (src : Store) (opts : ReplicatorOptions)
    (st : RepState) (id : DocId)
    (h : st.failures.length = st.doc_write_failures) :
    (processDoc src opts st id).failures.length =
      (processDoc src opts st id).doc_write_failures := by
  unfold processDoc
  rcases src.getDocument id with _ | d
  · simpa using h
  · by_cases hf : passesFilter opts d.body
    · simp only [hf, if_true]
      exact writeStep_failures _ _ _ _ (by simpa using h)
    · simpa [hf] using h

theorem foldl_processDoc_failures (src : Store) (opts : ReplicatorOptions) :
    ∀ (ids : List DocId) (st : RepState),
      st.failures.length = st.doc_write_failures →
      (ids.foldl (processDoc src opts) st).failures.length =
        (ids.foldl (processDoc src opts) st).doc_write_failures := by
  intro ids
  induction ids with
  | nil => intro st h; simpa using h
  | cons id rest ih =>
    intro st h
    rw [List.foldl_cons]
    exact ih _ (processDoc_failures _ _ _ _ h)

theorem addStats_zero (s : ReplicationStats) : addStats zeroStats s = s := by
  cases s
  simp [addStats, zeroStats]

/-- C10: for every `BidirectionalReplicator` constructed with
`continuous = false`, `start()` runs the single paired A-to-B / B-to-A pass
synchronously and returns its two results, and a subsequent `get_stats()`
returns a mapping with exactly the keys `a_to_b` and `b_to_a`, each holding
that direction's `ReplicationStats` (so `docs_written` is readable per
direction). -/
theorem bidir_start_oneshot_results_and_stats (a b : Store) :
    ((BidirectionalReplicator.make a b false).start).2 =
      some ((runPass (BidirState.start a b) defaultOpts).2.1,
        (runPass (BidirState.start a b) defaultOpts).2.2) ∧
    ((BidirectionalReplicator.make a b false).start).1.get_stats =
      [("a_to_b", (runPass (BidirState.start a b) defaultOpts).2.1.stats),
       ("b_to_a", (runPass (BidirState.start a b) defaultOpts).2.2.stats)] ∧
    (((BidirectionalReplicator.make a b false).start).1.get_stats).map
        (fun p => p.1) = ["a_to_b", "b_to_a"] := by
  refine ⟨?_, ?_, ?_⟩
  · simp [BidirectionalReplicator.make, BidirectionalReplicator.start, runPass]
  · simp [BidirectionalReplicator.make, BidirectionalReplicator.start,
      BidirectionalReplicator.get_stats, runPass, BidirState.start,
      addStats_zero]
  · simp [BidirectionalReplicator.make, BidirectionalReplicator.start,
      BidirectionalReplicator.get_stats]

/-! ### The circular buffer of the changes feed. -/

theorem foldl_handleChange_buffer (n : Nat) :
    ∀ (cs : List Change) (b : List Change), b.length ≤ n →
      (List.foldl ChangesFeed.handleChange ⟨n, b⟩ cs).buffer =
        (b ++ cs).drop (b.length + cs.length - n) := by
  intro cs
  induction cs with
  | nil =>
    intro b hb
    rw [List.foldl_nil, List.append_nil]
    have h0 : b.length + ([] : List Change).length - n = 0 := by
      simp only [List.length_nil]
      omega
    rw [h0, List.drop_zero]
  | cons c cs ih =>
    intro b hb
    rw [List.foldl_cons]
    have hstep : ChangesFeed.handleChange ⟨n, b⟩ c =
        ⟨n, (b ++ [c]).drop (b.length + 1 - n)⟩ := by
      simp [ChangesFeed.handleChange]
    rw [hstep]
    have hlen : ((b ++ [c]).drop (b.length + 1 - n)).length ≤ n := by
      simp only [List.length_drop, List.length_append, List.length_cons,
        List.length_nil]
      omega
    rw [ih _ hlen]
    simp only [List.length_drop, List.length_append, List.length_cons,
      List.length_nil]
    by_cases hc : b.length + 1 ≤ n
    · have h1 : b.length + 1 - n = 0 := by omega
      rw [h1, List.drop_zero]
      rw [show (b ++ [c]) ++ cs = b ++ c :: cs from by simp]
      congr 1
      omega
    · have h1 : b.length + 1 - n = 1 := by omega
      rw [h1]
      have h2 : (b ++ [c]).drop 1 ++ cs = ((b ++ [c]) ++ cs).drop 1 :=
        (List.drop_append_of_le_length (by simp)).symm
      rw [h2, List.drop_drop]
      rw [show (b ++ [c]) ++ cs = b ++ c :: cs from by simp]
      congr 1
      omega

/-- C9: for every sequence of changes delivered to a `ChangesFeed` of capacity
`bufferSize`, the buffer holds exactly the most recent
`min(delivered, bufferSize)` changes, the oldest entries having been evicted;
since this holds for every delivered sequence it holds after each individual
append, and `get_buffer` returns that (immutable) snapshot. -/
theorem changes_feed_buffer_holds_most_recent (n : Nat) (cs : List Change) :
    (ChangesFeed.deliverAll (ChangesFeed.make n) cs).get_buffer =
      cs.drop (cs.length - n) ∧
    ((ChangesFeed.deliverAll (ChangesFeed.make n) cs).get_buffer).length =
      min cs.length n := by
  have h := foldl_handleChange_buffer n cs [] (by simp)
  simp only [List.length_nil, List.nil_append, Nat.zero_add] at h
  refine ⟨h, ?_⟩
  show (ChangesFeed.deliverAll (ChangesFeed.make n) cs).buffer.length =
    min cs.length n
  have h2 : (ChangesFeed.deliverAll (ChangesFeed.make n) cs).buffer =
      cs.drop (cs.length - n) := h
  rw [h2, List.length_drop]
  omega

/-! ### Replication always runs to completion and reports its failures. -/

/-- C7: `replicate()` always returns a `ReplicationResult` (it is a total
function of its inputs); every enumerated source document is read and counted
regardless of per-document write failures — so no failure aborts the batch or
the run — and the failure list of the result records exactly
`docWriteFailures` entries, rather than any failure being raised. -/
theorem replicate_total_reads_all_and_records_failures
    (src tgt : Store) (opts : ReplicatorOptions) :
    (replicate src tgt opts).2.stats.docs_read = src.listDocumentIds.length ∧
    (replicate src tgt opts).2.failures.length =
      (replicate src tgt opts).2.stats.doc_write_failures := by
  have h1 := foldl_processDoc_docs_read src opts src.listDocumentIds
    (initState tgt)
  have h2 := foldl_processDoc_failures src opts src.listDocumentIds
    (initState tgt) rfl
  simp only [replicate, foldl_chunkList, mkResult]
  exact ⟨by rw [h1]; simp [initState], h2⟩

/-! ### Listener lifecycle: nothing fires after `stop()` returns. -/

theorem runTrace_append (l1 l2 : List LAct) :
    ∀ s : ListenerState,
      runTrace s (l1 ++ l2) =
        (runTrace s l1).bind (fun s' => runTrace s' l2) := by
  induction l1 with
  | nil => intro s; simp [runTrace]
  | cons a l1 ih =>
    intro s
    rw [List.cons_append]
    rcases hl : lstep s a with _ | s'
    · show (match lstep s a with
            | none => none
            | some x => runTrace x (l1 ++ l2)) =
        (match lstep s a with
         | none => none
         | some x => runTrace x l1).bind (fun x => runTrace x l2)
      rw [hl]
      rfl
    · show (match lstep s a with
            | none => none
            | some x => runTrace x (l1 ++ l2)) =
        (match lstep s a with
         | none => none
         | some x => runTrace x l1).bind (fun x => runTrace x l2)
      rw [hl]
      exact ih s'

/-- Once the listener is stopped (background unit exited, cancellation
requested), any accepted continuation contains no callback delivery and leaves
the state unchanged. -/
theorem runTrace_frozen :
    ∀ (as : List LAct) (s s' : ListenerState), s.running = false →
      s.stopRequested = true → runTrace s as = some s' →
      s' = s ∧ ∀ c, LAct.deliver c ∉ as := by
  intro as
  induction as with
  | nil =>
    intro s s' _ _ h
    refine ⟨by injection h with h; exact h.symm, by simp⟩
  | cons a as ih =>
    intro s s' hr hq h
    rcases a with c | _ | _ | _
    · simp [runTrace, lstep, hr] at h
    · have hstep : lstep s LAct.stopBegin = some s := by
        cases s
        simp_all [lstep]
      rw [show runTrace s (LAct.stopBegin :: as) =
        (match lstep s LAct.stopBegin with
         | none => none
         | some s2 => runTrace s2 as) from rfl, hstep] at h
      rcases ih s s' hr hq h with ⟨h1, h2⟩
      exact ⟨h1, by intro c; simp [h2 c]⟩
    · simp [runTrace, lstep, hr] at h
    · have hstep : lstep s LAct.stopEnd = some s := by
        simp [lstep, hr, hq]
      rw [show runTrace s (LAct.stopEnd :: as) =
        (match lstep s LAct.stopEnd with
         | none => none
         | some s2 => runTrace s2 as) from rfl, hstep] at h
      rcases ih s s' hr hq h with ⟨h1, h2⟩
      exact ⟨h1, by intro c; simp [h2 c]⟩

/-- C8: in every accepted execution of a started continuous listener, once
`stop()` has returned no further `onChange` callback is ever delivered, the
background execution unit has terminated (`running = false`), a second
`stop()` call is an accepted no-op (idempotent, returning in the same state),
and the callback count observed when `stop()` returned never changes
afterwards. -/
theorem listener_stop_is_final_and_idempotent (t1 t2 : List LAct)
    (s : ListenerState)
    (h : runTrace ListenerState.started (t1 ++ LAct.stopEnd :: t2) = some s) :
    (∀ c, LAct.deliver c ∉ t2) ∧ s.running = false ∧
    runTrace ListenerState.started
      ((t1 ++ LAct.stopEnd :: t2) ++ [LAct.stopBegin, LAct.stopEnd]) =
        some s ∧
    (∀ sm, runTrace ListenerState.started (t1 ++ [LAct.stopEnd]) = some sm →
      sm.callbackCount = s.callbackCount) := by
  rw [runTrace_append] at h
  rcases h1 : runTrace ListenerState.started t1 with _ | s1
  · rw [h1] at h; simp at h
  · rw [h1] at h
    simp only [Option.some_bind] at h
    have hse : runTrace s1 (LAct.stopEnd :: t2) = some s := h
    rcases hg : lstep s1 LAct.stopEnd with _ | s2
    · rw [show runTrace s1 (LAct.stopEnd :: t2) =
        (match lstep s1 LAct.stopEnd with
         | none => none
         | some x => runTrace x t2) from rfl, hg] at hse
      simp at hse
    · have hguard : s1.stopRequested = true ∧ s1.running = false := by
        by_cases hb : s1.stopRequested && !s1.running
        · constructor
          · exact (Bool.and_eq_true _ _ ▸ hb).1
          · have := (Bool.and_eq_true _ _ ▸ hb).2
            simpa using this
        · simp [lstep, hb] at hg
      have heq : lstep s1 LAct.stopEnd = some s1 := by
        simp [lstep, hguard.1, hguard.2]
      rw [show runTrace s1 (LAct.stopEnd :: t2) =
        (match lstep s1 LAct.stopEnd with
         | none => none
         | some x => runTrace x t2) from rfl, heq] at hse
      rcases runTrace_frozen t2 s1 s hguard.2 hguard.1 hse with ⟨hss, hnod⟩
      subst hss
      refine ⟨hnod, hguard.2, ?_, ?_⟩
      · rw [runTrace_append, runTrace_append, h1]
        simp only [Option.some_bind]
        rw [show runTrace s (LAct.stopEnd :: t2) =
          (match lstep s LAct.stopEnd with
           | none => none
           | some x => runTrace x t2) from rfl, heq, hse]
        simp only [Option.some_bind]
        have hb : lstep s LAct.stopBegin = some s := by
          cases s
          simp_all [lstep]
        show (match lstep s LAct.stopBegin with
              | none => none
              | some x => runTrace x [LAct.stopEnd]) = some s
        rw [hb]
        show (match lstep s LAct.stopEnd with
              | none => none
              | some x => runTrace x [] ) = some s
        rw [heq]
        rfl
      · intro sm hsm
        rw [runTrace_append, h1] at hsm
        simp only [Option.some_bind] at hsm
        rw [show runTrace s [LAct.stopEnd] =
          (match lstep s LAct.stopEnd with
           | none => none
           | some x => runTrace x []) from rfl, heq] at hsm
        injection hsm with hsm
        rw [← hsm]

/-! ### Fresh replication: writing a batch of new documents into a target
that does not hold them yet. -/

theorem bulkFresh_nil (t : Store) : t.bulkFresh [] = t := by
  simp [Store.bulkFresh]

theorem bulkFresh_cons (t : Store) (p : DocId × DocBody)
    (r : List (DocId × DocBody)) :
    t.bulkFresh (p :: r) =
      Store.bulkFresh
        ⟨t.docs ++ [(p.1, ⟨p.2, 1⟩)],
         t.changes ++ [⟨t.lastSeq + 1, p.1, 1, false, some p.2⟩],
         t.lastSeq + 1⟩ r := by
  simp only [Store.bulkFresh, List.map_cons, mkChanges_cons, Store.mk.injEq,
    List.append_assoc, List.cons_append, List.nil_append, List.length_cons,
    true_and, and_true]
  omega

theorem foldl_put_fresh :
    ∀ (l : List (DocId × DocBody)) (s : Store),
      (l.map (fun p => p.1)).Nodup →
      (∀ p ∈ l, s.getDocument p.1 = none) →
      l.foldl (fun s p => s.put p.1 p.2) s = s.bulkFresh l := by
  intro l
  induction l with
  | nil => intro s _ _; rw [List.foldl_nil, bulkFresh_nil]
  | cons p r ih =>
    intro s hnd hfresh
    rw [List.foldl_cons]
    have h0 : s.getDocument p.1 = none := hfresh p (List.mem_cons_self _ _)
    rw [put_of_none p.2 h0, bulkFresh_cons]
    have hnd' : ((p :: r).map (fun q => q.1)).Nodup := hnd
    rw [List.map_cons, List.nodup_cons] at hnd'
    apply ih
    · exact hnd'.2
    · intro q hq
      have hq0 : s.getDocument q.1 = none :=
        hfresh q (List.mem_cons_of_mem _ hq)
      have hne : p.1 ≠ q.1 := by
        intro hc
        exact hnd'.1 (hc ▸ List.mem_map.2 ⟨q, hq, rfl⟩)
      show lookupA (s.docs ++ [(p.1, ⟨p.2, 1⟩)]) q.1 = none
      rw [lookupA_append_of_none _ hq0, lookupA_cons, if_neg hne]
      rfl

theorem ofDocs_eq {l : List (DocId × DocBody)}
    (hnd : (l.map (fun p => p.1)).Nodup) :
    Store.ofDocs l = Store.empty.bulkFresh l :=
  foldl_put_fresh l Store.empty hnd (fun _ _ => rfl)

theorem lookupA_map_mem {l : List (DocId × DocBody)}
    (hnd : (l.map (fun p => p.1)).Nodup) {p : DocId × DocBody} (hp : p ∈ l) :
    lookupA (l.map (fun q => (q.1, (⟨q.2, 1⟩ : StoredDoc)))) p.1 =
      some ⟨p.2, 1⟩ := by
  induction l with
  | nil => simp at hp
  | cons q r ih =>
    rw [List.map_cons] at hnd ⊢
    rw [List.nodup_cons] at hnd
    rcases List.mem_cons.1 hp with h | h
    · subst h
      rw [lookupA_cons, if_pos rfl]
    · have hne : q.1 ≠ p.1 := by
        intro hc
        exact hnd.1 (hc ▸ List.mem_map.2 ⟨p, h, rfl⟩)
      rw [lookupA_cons, if_neg hne]
      exact ih hnd.2 h

theorem lookupA_map_not_mem {l : List (DocId × DocBody)} {id : DocId}
    (h : id ∉ l.map (fun p => p.1)) :
    lookupA (l.map (fun q => (q.1, (⟨q.2, 1⟩ : StoredDoc)))) id = none := by
  rw [lookupA_eq_none_iff]
  intro p hp
  rcases List.mem_map.1 hp with ⟨q, hq, rfl⟩
  intro hc
  exact h (hc ▸ List.mem_map.2 ⟨q, hq, rfl⟩)

/-- Looking up a document of a freshly built store. -/
theorem getDocument_bulkFresh_mem {t : Store} {l : List (DocId × DocBody)}
    (hnd : (l.map (fun p => p.1)).Nodup) {p : DocId × DocBody} (hp : p ∈ l)
    (ht : t.getDocument p.1 = none) :
    (t.bulkFresh l).getDocument p.1 = some ⟨p.2, 1⟩ := by
  show lookupA (t.docs ++ l.map (fun q => (q.1, (⟨q.2, 1⟩ : StoredDoc)))) p.1 =
    some ⟨p.2, 1⟩
  rw [lookupA_append_of_none _ ht]
  exact lookupA_map_mem hnd hp

theorem getDocument_bulkFresh_left {t : Store} {l : List (DocId × DocBody)}
    {id : DocId} {d : StoredDoc} (ht : t.getDocument id = some d) :
    (t.bulkFresh l).getDocument id = some d :=
  lookupA_append_of_some _ ht

/-- The fresh-write fold for a change-driven run: replicating the changes of
freshly created documents, none held by the target, none in the skip ledger
and all passing the filter, writes them all. -/
theorem foldl_processChange_fresh (src : Store) (opts : ReplicatorOptions)
    (skip : List (DocId × Nat)) :
    ∀ (l : List (DocId × DocBody)) (base : Nat) (st : RepState),
      (l.map (fun p => p.1)).Nodup →
      (∀ p ∈ l, src.getDocument p.1 = some ⟨p.2, 1⟩) →
      (∀ p ∈ l, ((p.1, 1) : DocId × Nat) ∉ skip) →
      (∀ p ∈ l, passesFilter opts p.2 = true) →
      (∀ p ∈ l, st.target.getDocument p.1 = none) →
      (mkChanges base l).foldl (processChange src opts skip) st =
        { st with
          target := st.target.bulkFresh l
          docs_read := st.docs_read + l.length
          docs_written := st.docs_written + l.length
          newLedger := st.newLedger ++ l.map (fun p => (p.1, 1)) } := by
  intro l
  induction l with
  | nil =>
    intro base st _ _ _ _ _
    rw [mkChanges_nil, List.foldl_nil, bulkFresh_nil]
    cases st
    simp
  | cons p r ih =>
    intro base st hnd hsrc hskip hfil htgt
    rw [List.map_cons, List.nodup_cons] at hnd
    rw [mkChanges_cons, List.foldl_cons]
    have hstep : processChange src opts skip st
        ⟨base + 1, p.1, 1, false, some p.2⟩ =
        { st with
          target := (st.target.putWithRev p.1 p.2).1
          docs_read := st.docs_read + 1
          docs_written := st.docs_written + 1
          newLedger := st.newLedger ++ [(p.1, 1)] } := by
      have hs := hsrc p (List.mem_cons_self _ _)
      have hk := hskip p (List.mem_cons_self _ _)
      have hf := hfil p (List.mem_cons_self _ _)
      have ht := htgt p (List.mem_cons_self _ _)
      simp only [processChange, hs]
      rw [if_neg (by simpa using hk), if_pos hf]
      simp only [writeStep, ht]
      rw [putWithRev_of_none p.2 ht]
    rw [hstep, putWithRev_of_none p.2 (htgt p (List.mem_cons_self _ _))]
    rw [ih (base + 1) _ hnd.2 (fun q hq => hsrc q (List.mem_cons_of_mem _ hq))
      (fun q hq => hskip q (List.mem_cons_of_mem _ hq))
      (fun q hq => hfil q (List.mem_cons_of_mem _ hq))
      (fun q hq => ?_)]
    · rw [bulkFresh_cons]
      simp [List.append_assoc, Nat.add_assoc, Nat.add_comm, Nat.add_left_comm]
    · have hq0 : st.target.getDocument q.1 = none :=
        htgt q (List.mem_cons_of_mem _ hq)
      have hne : p.1 ≠ q.1 := by
        intro hc
        exact hnd.1 (hc ▸ List.mem_map.2 ⟨q, hq, rfl⟩)
      show lookupA (st.target.docs ++ [(p.1, ⟨p.2, 1⟩)]) q.1 = none
      rw [lookupA_append_of_none _ hq0, lookupA_cons, if_neg hne]
      rfl

/-- The loop-prevention fold: every change whose document's current source
revision is recorded in the skip ledger is skipped — it is read but nothing is
written, failed or ledgered, and the target is untouched. -/
theorem foldl_processChange_skip (src : Store) (opts : ReplicatorOptions)
    (skip : List (DocId × Nat)) :
    ∀ (cs : List Change) (st : RepState),
      (∀ c ∈ cs, ∃ d, src.getDocument c.id = some d ∧ (c.id, d.rev) ∈ skip) →
      cs.foldl (processChange src opts skip) st =
        { st with docs_read := st.docs_read + cs.length } := by
  intro cs
  induction cs with
  | nil =>
    intro st _
    cases st
    simp
  | cons c cs ih =>
    intro st h
    rcases h c (List.mem_cons_self _ _) with ⟨d, hd, hmem⟩
    rw [List.foldl_cons]
    have hstep : processChange src opts skip st c =
        { st with docs_read := st.docs_read + 1 } := by
      simp only [processChange, hd]
      rw [if_pos hmem]
    rw [hstep, ih _ (fun c' hc' => h c' (List.mem_cons_of_mem _ hc'))]
    simp [Nat.add_assoc, Nat.add_comm, Nat.add_left_comm]

/-- The fresh-write fold for an id-driven run: replicating fresh documents
into a target that holds none of them reads every one and writes exactly
those passing the filter. -/
theorem foldl_processDoc_fresh (src : Store) (opts : ReplicatorOptions) :
    ∀ (l : List (DocId × DocBody)) (st : RepState),
      (l.map (fun p => p.1)).Nodup →
      (∀ p ∈ l, src.getDocument p.1 = some ⟨p.2, 1⟩) →
      (∀ p ∈ l, st.target.getDocument p.1 = none) →
      (l.map (fun p => p.1)).foldl (processDoc src opts) st =
        { st with
          target := st.target.bulkFresh
            (l.filter (fun p => passesFilter opts p.2))
          docs_read := st.docs_read + l.length
          docs_written := st.docs_written +
            (l.filter (fun p => passesFilter opts p.2)).length
          newLedger := st.newLedger ++
            (l.filter (fun p => passesFilter opts p.2)).map
              (fun p => (p.1, 1)) } := by
  intro l
  induction l with
  | nil =>
    intro st _ _ _
    rw [List.map_nil, List.foldl_nil, List.filter_nil, bulkFresh_nil]
    cases st
    simp
  | cons p r ih =>
    intro st hnd hsrc htgt
    rw [List.map_cons, List.foldl_cons]
    have hnd' := hnd
    rw [List.map_cons, List.nodup_cons] at hnd'
    have hs := hsrc p (List.mem_cons_self _ _)
    have ht := htgt p (List.mem_cons_self _ _)
    rcases hf : passesFilter opts p.2 with _ | _
    · have hstep : processDoc src opts st p.1 =
          { st with docs_read := st.docs_read + 1 } := by
        simp only [processDoc, hs]
        rw [if_neg (by simp [hf])]
      have hfc : List.filter (fun q => passesFilter opts q.2) (p :: r) =
          List.filter (fun q => passesFilter opts q.2) r := by
        simp [List.filter_cons, hf]
      rw [hstep,
        ih { st with docs_read := st.docs_read + 1 } hnd'.2
          (fun q hq => hsrc q (List.mem_cons_of_mem _ hq))
          (fun q hq => htgt q (List.mem_cons_of_mem _ hq)), hfc]
      simp [Nat.add_assoc, Nat.add_comm, Nat.add_left_comm]
    · have hstep : processDoc src opts st p.1 =
          { st with
            target := (st.target.putWithRev p.1 p.2).1
            docs_read := st.docs_read + 1
            docs_written := st.docs_written + 1
            newLedger := st.newLedger ++ [(p.1, 1)] } := by
        simp only [processDoc, hs]
        rw [if_pos hf]
        simp only [writeStep, ht]
        rw [putWithRev_of_none p.2 ht]
      have hfc : List.filter (fun q => passesFilter opts q.2) (p :: r) =
          p :: List.filter (fun q => passesFilter opts q.2) r := by
        simp [List.filter_cons, hf]
      have hfresh2 : ∀ q ∈ r,
          (({ st with
            target := (st.target.putWithRev p.1 p.2).1
            docs_read := st.docs_read + 1
            docs_written := st.docs_written + 1
            newLedger := st.newLedger ++ [(p.1, 1)] } : RepState)).target.getDocument q.1 = none := by
        intro q hq
        have hq0 : st.target.getDocument q.1 = none :=
          htgt q (List.mem_cons_of_mem _ hq)
        have hne : p.1 ≠ q.1 := by
          intro hc
          exact hnd'.1 (hc ▸ List.mem_map.2 ⟨q, hq, rfl⟩)
        show ((st.target.putWithRev p.1 p.2).1).getDocument q.1 = none
        rw [putWithRev_of_none p.2 ht]
        show lookupA (st.target.docs ++ [(p.1, ⟨p.2, 1⟩)]) q.1 = none
        rw [lookupA_append_of_none _ hq0, lookupA_cons, if_neg hne]
        rfl
      rw [hstep,
        ih _ hnd'.2 (fun q hq => hsrc q (List.mem_cons_of_mem _ hq)) hfresh2,
        hfc]
      rw [putWithRev_of_none p.2 ht, bulkFresh_cons]
      simp [List.append_assoc, Nat.add_assoc, Nat.add_comm,
        Nat.add_left_comm]

/-- The document ids of a fresh store are the given ids. -/
theorem listDocumentIds_bulkFresh_empty (l : List (DocId × DocBody)) :
    (Store.empty.bulkFresh l).listDocumentIds = l.map (fun p => p.1) := by
  show (([] : List (DocId × StoredDoc)) ++
    l.map (fun q => (q.1, (⟨q.2, 1⟩ : StoredDoc)))).map (fun p => p.1) =
    l.map (fun p => p.1)
  rw [List.nil_append, List.map_map]
  rfl

/-- C5: for a source holding exactly 10 documents (distinct ids, any bodies)
and an empty target, one-shot `replicate()` with `batchSize = 3` reads 10,
writes 10, fails 0, and leaves the target holding exactly the source's
documents — same ids, same bodies. -/
theorem replicate_ten_fresh_docs_roundtrip (l : List (DocId × DocBody))
    (hlen : l.length = 10) (hnd : (l.map (fun p => p.1)).Nodup) :
    (replicate (Store.ofDocs l) Store.empty ⟨3, none, none⟩).2.stats.docs_read
        = 10 ∧
    (replicate (Store.ofDocs l) Store.empty
        ⟨3, none, none⟩).2.stats.docs_written = 10 ∧
    (replicate (Store.ofDocs l) Store.empty
        ⟨3, none, none⟩).2.stats.doc_write_failures = 0 ∧
    (replicate (Store.ofDocs l) Store.empty ⟨3, none, none⟩).1.docs =
      (Store.ofDocs l).docs := by
  have hsrc : ∀ p ∈ l, (Store.ofDocs l).getDocument p.1 = some ⟨p.2, 1⟩ := by
    intro p hp
    rw [ofDocs_eq hnd]
    exact getDocument_bulkFresh_mem hnd hp rfl
  have hids : (Store.ofDocs l).listDocumentIds = l.map (fun p => p.1) := by
    rw [ofDocs_eq hnd]
    exact listDocumentIds_bulkFresh_empty l
  have hfil : l.filter (fun p => passesFilter (⟨3, none, none⟩ :
      ReplicatorOptions) p.2) = l := by
    apply List.filter_eq_self.2
    intro p _
    rfl
  have hrun := foldl_processDoc_fresh (Store.ofDocs l)
    ⟨3, none, none⟩ l (initState Store.empty) hnd hsrc (fun p _ => rfl)
  rw [hfil] at hrun
  simp only [replicate, foldl_chunkList, mkResult, hids, hrun]
  refine ⟨?_, ?_, rfl, ?_⟩
  · show 0 + l.length = 10
    omega
  · show 0 + l.length = 10
    omega
  · rw [ofDocs_eq hnd]
    rfl

/-- C6: in every replication run every enumerated document counts toward
`docsRead` (whether or not a filter discards it); and with a `filterFunction`
only documents satisfying the filter are written: for 20 fresh source
documents of which exactly 7 satisfy the filter and an empty target, the run
reads 20, writes 7, and the target ends up holding exactly the 7 passing
documents. -/
theorem replicate_filter_reads_all_writes_passing :
    (∀ (src tgt : Store) (opts : ReplicatorOptions),
      (replicate src tgt opts).2.stats.docs_read =
        src.listDocumentIds.length) ∧
    (∀ (l : List (DocId × DocBody)) (f : DocBody → Bool),
      (l.map (fun p => p.1)).Nodup → l.length = 20 →
      (l.filter (fun p => f p.2)).length = 7 →
      (replicate (Store.ofDocs l) Store.empty
          ⟨100, some f, none⟩).2.stats.docs_read = 20 ∧
      (replicate (Store.ofDocs l) Store.empty
          ⟨100, some f, none⟩).2.stats.docs_written = 7 ∧
      (replicate (Store.ofDocs l) Store.empty ⟨100, some f, none⟩).1.docs =
        (l.filter (fun p => f p.2)).map
          (fun p => (p.1, (⟨p.2, 1⟩ : StoredDoc)))) := by
  constructor
  · intro src tgt opts
    have h1 := foldl_processDoc_docs_read src opts src.listDocumentIds
      (initState tgt)
    simp only [replicate, foldl_chunkList, mkResult]
    rw [h1]
    simp [initState]
  · intro l f hnd hlen hcount
    have hsrc : ∀ p ∈ l, (Store.ofDocs l).getDocument p.1 =
        some ⟨p.2, 1⟩ := by
      intro p hp
      rw [ofDocs_eq hnd]
      exact getDocument_bulkFresh_mem hnd hp rfl
    have hids : (Store.ofDocs l).listDocumentIds = l.map (fun p => p.1) := by
      rw [ofDocs_eq hnd]
      exact listDocumentIds_bulkFresh_empty l
    have hfil : (fun (p : DocId × DocBody) =>
        passesFilter ⟨100, some f, none⟩ p.2) = (fun p => f p.2) := rfl
    have hrun := foldl_processDoc_fresh (Store.ofDocs l)
      ⟨100, some f, none⟩ l (initState Store.empty) hnd hsrc (fun p _ => rfl)
    rw [hfil] at hrun
    simp only [replicate, foldl_chunkList, mkResult, hids, hrun]
    refine ⟨?_, ?_, ?_⟩
    · show 0 + l.length = 20
      omega
    · show 0 + (l.filter (fun p => f p.2)).length = 7
      omega
    · show (Store.empty.bulkFresh (l.filter (fun p => f p.2))).docs =
        (l.filter (fun p => f p.2)).map
          (fun p => (p.1, (⟨p.2, 1⟩ : StoredDoc)))
      show ([] : List (DocId × StoredDoc)) ++ _ = _
      rw [List.nil_append]

/-! ### Bidirectional convergence. -/

theorem replicatePass_eq (src tgt : Store) (since : Nat)
    (skip : List (DocId × Nat)) (opts : ReplicatorOptions) :
    replicatePass src tgt since skip opts =
      (src.changes.filter (fun c => decide (since < c.seq))).foldl
        (processChange src opts skip) (initState tgt) := by
  simp only [replicatePass, foldl_chunkList]

theorem filter_mkChanges_of_le {l : List (DocId × DocBody)}
    {base since : Nat} (h : since ≤ base) :
    (mkChanges base l).filter (fun c => decide (since < c.seq)) =
      mkChanges base l := by
  apply List.filter_eq_self.2
  intro c hc
  rcases mem_mkChanges hc with ⟨p, _, _, _, _, h4, _⟩
  simp only [decide_eq_true_eq]
  omega

theorem filter_mkChanges_of_ge {l : List (DocId × DocBody)}
    {base since : Nat} (h : base + l.length ≤ since) :
    (mkChanges base l).filter (fun c => decide (since < c.seq)) = [] := by
  apply List.filter_eq_nil_iff.2
  intro c hc
  rcases mem_mkChanges hc with ⟨p, _, _, _, _, _, h5⟩
  simp only [decide_eq_true_eq]
  omega

theorem getDocument_bulkFresh_empty_not_mem {l : List (DocId × DocBody)}
    {id : DocId} (h : id ∉ l.map (fun p => p.1)) :
    (Store.empty.bulkFresh l).getDocument id = none := by
  show lookupA (([] : List (DocId × StoredDoc)) ++
    l.map (fun q => (q.1, (⟨q.2, 1⟩ : StoredDoc)))) id = none
  rw [List.nil_append]
  exact lookupA_map_not_mem h

/-- The first bidirectional pass on disjoint fresh stores: A→B writes all of
A's documents, B→A writes exactly B's own documents, skipping every document
whose latest revision was just written by A→B. -/
theorem runPass_fresh_scenario (la lb : List (DocId × DocBody))
    (hka : (la.map (fun p => p.1)).Nodup)
    (hkb : (lb.map (fun p => p.1)).Nodup)
    (hdisj : ∀ id ∈ la.map (fun p => p.1), id ∉ lb.map (fun p => p.1)) :
    runPass (BidirState.start (Store.empty.bulkFresh la)
        (Store.empty.bulkFresh lb)) defaultOpts =
      (⟨(Store.empty.bulkFresh la).bulkFresh lb,
        (Store.empty.bulkFresh lb).bulkFresh la,
        la.length, lb.length + la.length,
        la.map (fun p => (p.1, 1)), lb.map (fun p => (p.1, 1)),
        ⟨la.length, la.length, 0⟩, ⟨lb.length + la.length, lb.length, 0⟩⟩,
       ⟨⟨la.length, la.length, 0⟩, []⟩,
       ⟨⟨lb.length + la.length, lb.length, 0⟩, []⟩) := by
  have hbfresh : ∀ q ∈ lb, (Store.empty.bulkFresh lb).getDocument q.1 =
      some ⟨q.2, 1⟩ := fun q hq => getDocument_bulkFresh_mem hkb hq rfl
  have hanotb : ∀ p ∈ la, (Store.empty.bulkFresh lb).getDocument p.1 =
      none := by
    intro p hp
    exact getDocument_bulkFresh_empty_not_mem
      (hdisj p.1 (List.mem_map.2 ⟨p, hp, rfl⟩))
  have hbnota : ∀ q ∈ lb, (Store.empty.bulkFresh la).getDocument q.1 =
      none := by
    intro q hq
    apply getDocument_bulkFresh_empty_not_mem
    intro hmem
    exact hdisj q.1 hmem (List.mem_map.2 ⟨q, hq, rfl⟩)
  have hrab : replicatePass (Store.empty.bulkFresh la)
      (Store.empty.bulkFresh lb) 0 [] defaultOpts =
      { target := (Store.empty.bulkFresh lb).bulkFresh la
        docs_read := 0 + la.length
        docs_written := 0 + la.length
        doc_write_failures := 0
        failures := []
        newLedger := [] ++ la.map (fun p => (p.1, 1)) } := by
    rw [replicatePass_eq]
    have hch : (Store.empty.bulkFresh la).changes = mkChanges 0 la := by
      show ([] : List Change) ++ mkChanges 0 la = mkChanges 0 la
      rw [List.nil_append]
    rw [hch, filter_mkChanges_of_le (Nat.le_refl 0)]
    exact foldl_processChange_fresh _ _ _ la 0 _ hka
      (fun p hp => getDocument_bulkFresh_mem hka hp rfl)
      (fun p _ => List.not_mem_nil _)
      (fun p _ => rfl)
      (fun p hp => hanotb p hp)
  have hrba : replicatePass ((Store.empty.bulkFresh lb).bulkFresh la)
      (Store.empty.bulkFresh la) 0
      ([] ++ ([] ++ la.map (fun p => (p.1, 1)))) defaultOpts =
      { target := (Store.empty.bulkFresh la).bulkFresh lb
        docs_read := 0 + lb.length + la.length
        docs_written := 0 + lb.length
        doc_write_failures := 0
        failures := []
        newLedger := [] ++ lb.map (fun p => (p.1, 1)) } := by
    rw [replicatePass_eq]
    have hch : ((Store.empty.bulkFresh lb).bulkFresh la).changes =
        mkChanges 0 lb ++ mkChanges (0 + lb.length) la := by
      show (([] : List Change) ++ mkChanges 0 lb) ++
        mkChanges (0 + lb.length) la = _
      rw [List.nil_append]
    have hskipq : ∀ q ∈ lb, ((q.1 : DocId), (1 : Nat)) ∉
        ([] ++ ([] ++ la.map (fun p => (p.1, 1)))) := by
      intro q hq hmem
      simp only [List.nil_append] at hmem
      rcases List.mem_map.1 hmem with ⟨p, hp, hpq⟩
      have hpq1 : p.1 = q.1 := (Prod.mk.injEq _ _ _ _ ▸ hpq).1
      exact hdisj q.1 (hpq1 ▸ List.mem_map.2 ⟨p, hp, rfl⟩)
        (List.mem_map.2 ⟨q, hq, rfl⟩)
    have hskipall : ∀ c ∈ mkChanges (0 + lb.length) la, ∃ d,
        ((Store.empty.bulkFresh lb).bulkFresh la).getDocument c.id = some d ∧
        (c.id, d.rev) ∈ ([] ++ ([] ++ la.map (fun p => (p.1, 1)))) := by
      intro c hc
      rcases mem_mkChanges hc with ⟨p, hp, hid, _, _, _, _⟩
      refine ⟨⟨p.2, 1⟩, ?_, ?_⟩
      · rw [hid]
        exact getDocument_bulkFresh_mem hka hp
          (getDocument_bulkFresh_empty_not_mem
            (hdisj p.1 (List.mem_map.2 ⟨p, hp, rfl⟩)))
      · rw [hid]
        simp only [List.nil_append]
        exact List.mem_map.2 ⟨p, hp, rfl⟩
    rw [hch, List.filter_append, filter_mkChanges_of_le (Nat.le_refl 0),
      filter_mkChanges_of_le (Nat.zero_le _), List.foldl_append,
      foldl_processChange_fresh ((Store.empty.bulkFresh lb).bulkFresh la)
        defaultOpts ([] ++ ([] ++ la.map (fun p => (p.1, 1)))) lb 0 _ hkb
        (fun q hq => getDocument_bulkFresh_left (hbfresh q hq))
        hskipq (fun q _ => rfl) (fun q hq => hbnota q hq),
      foldl_processChange_skip _ _ _ (mkChanges (0 + lb.length) la) _
        hskipall]
    simp only [RepState.mk.injEq, mkChanges_length, List.nil_append,
      initState, true_and, and_true]
  show runPass _ _ = _
  simp only [runPass, BidirState.start, hrab, hrba]
  simp only [Prod.mk.injEq, BidirState.mk.injEq, ReplicationResult.mk.injEq,
    ReplicationStats.mk.injEq, addStats, zeroStats, mkResult, Store.bulkFresh,
    Store.empty, List.nil_append, List.length_append, List.length_map,
    mkChanges_length, true_and, and_true]
  repeat' apply And.intro
  all_goals first
  | rfl
  | omega

/-- The second bidirectional pass after convergence: both directions see only
changes whose latest revisions originated from the reverse direction (or no
new changes at all), so neither direction writes anything. -/
theorem runPass_second_pass_zero (la lb : List (DocId × DocBody))
    (_hka : (la.map (fun p => p.1)).Nodup)
    (hkb : (lb.map (fun p => p.1)).Nodup)
    (hdisj : ∀ id ∈ la.map (fun p => p.1), id ∉ lb.map (fun p => p.1))
    (sAB sBA : ReplicationStats) :
    (runPass ⟨(Store.empty.bulkFresh la).bulkFresh lb,
        (Store.empty.bulkFresh lb).bulkFresh la,
        la.length, lb.length + la.length,
        la.map (fun p => (p.1, 1)), lb.map (fun p => (p.1, 1)),
        sAB, sBA⟩ defaultOpts).2.1.stats.docs_written = 0 ∧
    (runPass ⟨(Store.empty.bulkFresh la).bulkFresh lb,
        (Store.empty.bulkFresh lb).bulkFresh la,
        la.length, lb.length + la.length,
        la.map (fun p => (p.1, 1)), lb.map (fun p => (p.1, 1)),
        sAB, sBA⟩ defaultOpts).2.2.stats.docs_written = 0 := by
  have hrab2 : replicatePass ((Store.empty.bulkFresh la).bulkFresh lb)
      ((Store.empty.bulkFresh lb).bulkFresh la) la.length
      (lb.map (fun p => (p.1, 1))) defaultOpts =
      { initState ((Store.empty.bulkFresh lb).bulkFresh la) with
        docs_read := 0 + lb.length } := by
    rw [replicatePass_eq]
    have hch : ((Store.empty.bulkFresh la).bulkFresh lb).changes =
        mkChanges 0 la ++ mkChanges (0 + la.length) lb := by
      show (([] : List Change) ++ mkChanges 0 la) ++
        mkChanges (0 + la.length) lb = _
      rw [List.nil_append]
    have hskipall : ∀ c ∈ mkChanges (0 + la.length) lb, ∃ d,
        ((Store.empty.bulkFresh la).bulkFresh lb).getDocument c.id = some d ∧
        (c.id, d.rev) ∈ lb.map (fun p => (p.1, 1)) := by
      intro c hc
      rcases mem_mkChanges hc with ⟨p, hp, hid, _, _, _, _⟩
      refine ⟨⟨p.2, 1⟩, ?_, ?_⟩
      · rw [hid]
        apply getDocument_bulkFresh_mem hkb hp
        apply getDocument_bulkFresh_empty_not_mem
        intro hmem
        exact hdisj p.1 hmem (List.mem_map.2 ⟨p, hp, rfl⟩)
      · rw [hid]
        exact List.mem_map.2 ⟨p, hp, rfl⟩
    rw [hch, List.filter_append, filter_mkChanges_of_ge (by omega),
      filter_mkChanges_of_le (by omega), List.nil_append,
      foldl_processChange_skip _ _ _ (mkChanges (0 + la.length) lb) _
        hskipall]
    simp only [RepState.mk.injEq, mkChanges_length, initState, true_and,
      and_true]
  have hrba2 : replicatePass ((Store.empty.bulkFresh lb).bulkFresh la)
      ((Store.empty.bulkFresh la).bulkFresh lb) (lb.length + la.length)
      (la.map (fun p => (p.1, 1)) ++ []) defaultOpts =
      initState ((Store.empty.bulkFresh la).bulkFresh lb) := by
    rw [replicatePass_eq]
    have hch : ((Store.empty.bulkFresh lb).bulkFresh la).changes =
        mkChanges 0 lb ++ mkChanges (0 + lb.length) la := by
      show (([] : List Change) ++ mkChanges 0 lb) ++
        mkChanges (0 + lb.length) la = _
      rw [List.nil_append]
    rw [hch, List.filter_append, filter_mkChanges_of_ge (by omega),
      filter_mkChanges_of_ge (by omega), List.nil_append, List.foldl_nil]
  show (_, mkResult _, mkResult _).2.1.stats.docs_written = 0 ∧ _
  simp only [runPass, hrab2, hrba2, mkResult, initState]
  repeat' apply And.intro
  all_goals first
  | rfl
  | trivial

/-- C1: for every pair of fresh stores holding disjoint document sets of
sizes 5 and 3 (no conflicts), one bidirectional pass leaves both stores with
the 8-document union — A-to-B writes exactly the 5 documents of A and B-to-A
writes exactly the 3 documents of B, never echoing back a document just
replicated — and a second pass performs zero writes in either direction. -/
theorem bidirectional_pass_converges_and_second_pass_is_silent
    (la lb : List (DocId × DocBody)) (h5 : la.length = 5)
    (h3 : lb.length = 3)
    (hnd : ((la ++ lb).map (fun p => p.1)).Nodup) :
    ((runPass (BidirState.start (Store.ofDocs la) (Store.ofDocs lb)) defaultOpts).1.a.docs.map (fun (q : DocId × StoredDoc) => (q.1, q.2.body)) = la ++ lb) ∧
    ((runPass (BidirState.start (Store.ofDocs la) (Store.ofDocs lb)) defaultOpts).1.b.docs.map (fun (q : DocId × StoredDoc) => (q.1, q.2.body)) = lb ++ la) ∧
    (runPass (BidirState.start (Store.ofDocs la) (Store.ofDocs lb)) defaultOpts).1.a.docs.length = 8 ∧
    (runPass (BidirState.start (Store.ofDocs la) (Store.ofDocs lb)) defaultOpts).1.b.docs.length = 8 ∧
    (runPass (BidirState.start (Store.ofDocs la) (Store.ofDocs lb)) defaultOpts).2.1.stats.docs_written = 5 ∧
    (runPass (BidirState.start (Store.ofDocs la) (Store.ofDocs lb)) defaultOpts).2.2.stats.docs_written = 3 ∧
    (runPass (runPass (BidirState.start (Store.ofDocs la) (Store.ofDocs lb)) defaultOpts).1 defaultOpts).2.1.stats.docs_written = 0 ∧
    (runPass (runPass (BidirState.start (Store.ofDocs la) (Store.ofDocs lb)) defaultOpts).1 defaultOpts).2.2.stats.docs_written = 0 := by
  rw [List.map_append, List.nodup_append] at hnd
  obtain ⟨hka, hkb, hdisj⟩ := hnd
  have hdisj2 : ∀ id ∈ la.map (fun p => p.1), id ∉ lb.map (fun p => p.1) :=
    fun id h1 h2 => hdisj h1 h2
  rw [ofDocs_eq hka, ofDocs_eq hkb,
    runPass_fresh_scenario la lb hka hkb hdisj2]
  refine ⟨?_, ?_, ?_, ?_, h5, h3, ?_, ?_⟩
  · show ((([] : List (DocId × StoredDoc)) ++
      la.map (fun (p : DocId × DocBody) => (p.1, (⟨p.2, 1⟩ : StoredDoc)))) ++
      lb.map (fun (p : DocId × DocBody) => (p.1, (⟨p.2, 1⟩ : StoredDoc)))).map (fun (q : DocId × StoredDoc) => (q.1, q.2.body)) =
      la ++ lb
    rw [List.nil_append, List.map_append, List.map_map, List.map_map]
    show la.map (fun (p : DocId × DocBody) => (p.1, p.2)) ++ lb.map (fun (p : DocId × DocBody) => (p.1, p.2)) =
      la ++ lb
    simp
  · show ((([] : List (DocId × StoredDoc)) ++
      lb.map (fun (p : DocId × DocBody) => (p.1, (⟨p.2, 1⟩ : StoredDoc)))) ++
      la.map (fun (p : DocId × DocBody) => (p.1, (⟨p.2, 1⟩ : StoredDoc)))).map (fun (q : DocId × StoredDoc) => (q.1, q.2.body)) =
      lb ++ la
    rw [List.nil_append, List.map_append, List.map_map, List.map_map]
    show lb.map (fun (p : DocId × DocBody) => (p.1, p.2)) ++ la.map (fun (p : DocId × DocBody) => (p.1, p.2)) =
      lb ++ la
    simp
  · show ((([] : List (DocId × StoredDoc)) ++
      la.map (fun (p : DocId × DocBody) => (p.1, (⟨p.2, 1⟩ : StoredDoc)))) ++
      lb.map (fun (p : DocId × DocBody) => (p.1, (⟨p.2, 1⟩ : StoredDoc)))).length = 8
    simp [h5, h3]
  · show ((([] : List (DocId × StoredDoc)) ++
      lb.map (fun (p : DocId × DocBody) => (p.1, (⟨p.2, 1⟩ : StoredDoc)))) ++
      la.map (fun (p : DocId × DocBody) => (p.1, (⟨p.2, 1⟩ : StoredDoc)))).length = 8
    simp [h5, h3]
  · exact (runPass_second_pass_zero la lb hka hkb hdisj2 _ _).1
  · exact (runPass_second_pass_zero la lb hka hkb hdisj2 _ _).2

/-! ### The pull-mode change feed. -/

theorem seq_bounds_of_wf {cs : List Change} {b : Nat}
    (hwf : cs.map (fun c => c.seq) = List.range' (b + 1) cs.length) :
    ∀ c ∈ cs, b < c.seq ∧ c.seq ≤ b + cs.length := by
  intro c hc
  have : c.seq ∈ List.range' (b + 1) cs.length := by
    rw [← hwf]
    exact List.mem_map.2 ⟨c, hc, rfl⟩
  rcases List.mem_range'_1.1 this with ⟨h1, h2⟩
  omega

theorem filter_gt_of_wf :
    ∀ (cs : List Change) (b S : Nat),
      cs.map (fun c => c.seq) = List.range' (b + 1) cs.length → b ≤ S →
      cs.filter (fun c => decide (S < c.seq)) = cs.drop (S - b) := by
  intro cs
  induction cs with
  | nil => intro b S _ _; simp
  | cons c cs ih =>
    intro b S hwf hbS
    rw [List.map_cons, List.length_cons, List.range'_succ] at hwf
    have hc : c.seq = b + 1 := (List.cons.injEq _ _ _ _ ▸ hwf).1
    have hcs : cs.map (fun c => c.seq) =
        List.range' (b + 1 + 1) cs.length :=
      (List.cons.injEq _ _ _ _ ▸ hwf).2
    by_cases hS : S = b
    · subst hS
      have h0 : S - S = 0 := by omega
      rw [h0, List.drop_zero, List.filter_cons_of_pos
        (by simp only [decide_eq_true_eq]; omega)]
      congr 1
      apply List.filter_eq_self.2
      intro x hx
      have := (seq_bounds_of_wf hcs x hx).1
      simp only [decide_eq_true_eq]
      omega
    · have hbS' : b + 1 ≤ S := by omega
      rw [List.filter_cons_of_neg
        (by simp only [decide_eq_true_eq]; omega)]
      have hdrop : S - b = (S - (b + 1)) + 1 := by omega
      rw [hdrop, List.drop_succ_cons]
      exact ih (b + 1) S hcs hbS'

theorem filter_le_of_wf :
    ∀ (cs : List Change) (b N : Nat),
      cs.map (fun c => c.seq) = List.range' (b + 1) cs.length →
      N ≤ cs.length →
      cs.filter (fun c => decide (c.seq ≤ b + N)) = cs.take N := by
  intro cs
  induction cs with
  | nil => intro b N _ _; simp
  | cons c cs ih =>
    intro b N hwf hN
    rw [List.map_cons, List.length_cons, List.range'_succ] at hwf
    have hc : c.seq = b + 1 := (List.cons.injEq _ _ _ _ ▸ hwf).1
    have hcs : cs.map (fun c => c.seq) =
        List.range' (b + 1 + 1) cs.length :=
      (List.cons.injEq _ _ _ _ ▸ hwf).2
    rcases N with _ | M
    · rw [List.take_zero]
      apply List.filter_eq_nil_iff.2
      intro x hx
      simp only [decide_eq_true_eq]
      rcases List.mem_cons.1 hx with h | h
      · subst h; omega
      · have := (seq_bounds_of_wf hcs x h).1
        omega
    · rw [List.take_succ_cons, List.filter_cons_of_pos
        (by simp only [decide_eq_true_eq]; omega)]
      congr 1
      have harith : b + (M + 1) = (b + 1) + M := by omega
      rw [show (fun c : Change => decide (c.seq ≤ b + (M + 1))) =
        (fun c : Change => decide (c.seq ≤ (b + 1) + M)) from by
          funext c
          rw [harith]]
      exact ih (b + 1) M hcs (by
        rw [List.length_cons] at hN
        omega)

/-- C4: for every well-formed store and every `N` changes published between
sequence tokens `S` and `S' = S + N`, the synchronous pull
`getChanges(since = S, limit = N)` returns exactly those `N` changes, in
non-decreasing sequence order, and reports `lastSeq = S'`; the call is a pure
function of the store (no background activity). -/
theorem get_changes_returns_exact_window (s : Store) (hwf : ChangesWF s)
    (S N : Nat) (h : S + N ≤ s.changes.length) :
    ((ChangesListener.mk s).get_changes S N).results =
      s.changes.filter (fun c => decide (S < c.seq ∧ c.seq ≤ S + N)) ∧
    ((ChangesListener.mk s).get_changes S N).results.length = N ∧
    List.Pairwise (fun c1 c2 : Change => c1.seq ≤ c2.seq)
      ((ChangesListener.mk s).get_changes S N).results ∧
    ((ChangesListener.mk s).get_changes S N).last_seq = S + N := by
  have hwf0 : s.changes.map (fun c => c.seq) =
      List.range' (0 + 1) s.changes.length := by
    rw [ChangesWF] at hwf
    simpa using hwf
  have hgt : s.changes.filter (fun c => decide (S < c.seq)) =
      s.changes.drop S := by
    have := filter_gt_of_wf s.changes 0 S hwf0 (Nat.zero_le _)
    simpa using this
  have hdropwf : (s.changes.drop S).map (fun c => c.seq) =
      List.range' (S + 1) (s.changes.drop S).length := by
    rw [List.map_drop, hwf0, List.length_drop]
    have hsplit : List.range' (0 + 1) s.changes.length =
        List.range' 1 S ++ List.range' (1 + S) (s.changes.length - S) := by
      rw [List.range'_append_1]
      congr 1
      omega
    rw [hsplit, List.drop_left' (by simp)]
    congr 1
    omega
  have hres : ((ChangesListener.mk s).get_changes S N).results =
      (s.changes.drop S).take N := by
    show ((s.changes.filter (fun c => decide (S < c.seq))).take N) = _
    rw [hgt]
  have hlen : ((s.changes.drop S).take N).length = N := by
    rw [List.length_take, List.length_drop]
    omega
  have hmapseq : ((s.changes.drop S).take N).map (fun c => c.seq) =
      List.range' (S + 1) N := by
    rw [List.map_take, hdropwf]
    have hsplit : List.range' (S + 1) (s.changes.drop S).length =
        List.range' (S + 1) N ++
          List.range' (S + 1 + N) ((s.changes.drop S).length - N) := by
      rw [List.range'_append_1]
      congr 1
      rw [List.length_drop]
      omega
    rw [hsplit, List.take_left' (by simp)]
  refine ⟨?_, ?_, ?_, ?_⟩
  · rw [hres]
    have hconj : (fun c : Change => decide (S < c.seq ∧ c.seq ≤ S + N)) =
        (fun c : Change =>
          decide (c.seq ≤ S + N) && decide (S < c.seq)) := by
      funext c
      rw [Bool.decide_and, Bool.and_comm]
    rw [hconj, ← List.filter_filter, hgt]
    have htake := filter_le_of_wf (s.changes.drop S) S N hdropwf
      (by rw [List.length_drop]; omega)
    rw [htake]
  · rw [hres, hlen]
  · rw [hres]
    have hpw : List.Pairwise (fun a b : Nat => a < b)
        (((s.changes.drop S).take N).map (fun c => c.seq)) := by
      rw [hmapseq]
      exact List.pairwise_lt_range' _ _
    rw [List.pairwise_map] at hpw
    exact hpw.imp (fun h => Nat.le_of_lt h)
  · show (((((s.changes.filter (fun c => decide (S < c.seq))).take
        N)).getLast?).map (fun c => c.seq)).getD S = S + N
    rw [hgt]
    have hlast : (((s.changes.drop S).take N).map
        (fun c => c.seq)).getLast? =
        (((s.changes.drop S).take N).getLast?).map (fun c => c.seq) :=
      List.getLast?_map _ _
    rcases N with _ | M
    · have : ((s.changes.drop S).take 0) = [] := List.take_zero _
      rw [this]
      rfl
    · rw [hmapseq, List.range'_1_concat, List.getLast?_concat] at hlast
      rw [← hlast]
      show (S + 1 + M : Nat) = S + (M + 1)
      omega

/-! ### Conflict resolution policies. -/

/-- C2: `SOURCE_WINS` always resolves to the incoming body; `TARGET_WINS`
always yields the skip sentinel (target untouched); `LATEST_WINS` persists
whichever body has the greater designated timestamp field under the
caller-specified comparator, ties resolving to incoming.  End to end: for
document `X` with `value = A, timestamp = T1` on the source and
`value = B, timestamp = T2` with `T1 < T2` on the target, replication under
`SOURCE_WINS` leaves the target's `X` with `value = A`, and under
`LATEST_WINS` with `value = B`. -/
theorem conflict_policy_resolution :
    (∀ (cfg : ConflictResolver) (i e : DocBody),
      (cfg.strategy = ConflictStrategy.source_wins →
        resolve cfg i e = Resolution.persist i) ∧
      (cfg.strategy = ConflictStrategy.target_wins →
        resolve cfg i e = Resolution.skip) ∧
      (∀ ti te, cfg.strategy = ConflictStrategy.latest_wins →
        getField i cfg.tsField = some ti →
        getField e cfg.tsField = some te →
        resolve cfg i e =
          Resolution.persist (if cfg.lt ti te = true then e else i))) ∧
    (∀ (A B T1 T2 : Val) (lt : Val → Val → Bool), lt T1 T2 = true →
      (((replicate
          (Store.ofDocs [("X", [("value", A), ("updated_at", T1)])])
          (Store.ofDocs [("X", [("value", B), ("updated_at", T2)])])
          ⟨10, none,
            some ⟨ConflictStrategy.source_wins, "updated_at", lt⟩⟩).1.getDocument
          "X").map (fun d => getField d.body "value") = some (some A)) ∧
      (((replicate
          (Store.ofDocs [("X", [("value", A), ("updated_at", T1)])])
          (Store.ofDocs [("X", [("value", B), ("updated_at", T2)])])
          ⟨10, none,
            some ⟨ConflictStrategy.latest_wins, "updated_at", lt⟩⟩).1.getDocument
          "X").map (fun d => getField d.body "value") = some (some B))) := by
  constructor
  · intro cfg i e
    refine ⟨?_, ?_, ?_⟩
    · intro h
      simp [resolve, h]
    · intro h
      simp [resolve, h]
    · intro ti te h h1 h2
      rcases hlt : cfg.lt ti te with _ | _ <;>
        simp [resolve, h, h1, h2, hlt]
  · intro A B T1 T2 lt hlt
    by_cases hbody : ([("value", B), ("updated_at", T2)] : DocBody) =
        [("value", A), ("updated_at", T1)]
    · have hBA : B = A := by
        have := (List.cons.injEq _ _ _ _ ▸ hbody).1
        exact (Prod.mk.injEq _ _ _ _ ▸ this).2
      have hT : T2 = T1 := by
        have h2 := (List.cons.injEq _ _ _ _ ▸ hbody).2
        have h3 := (List.cons.injEq _ _ _ _ ▸ h2).1
        exact (Prod.mk.injEq _ _ _ _ ▸ h3).2
      constructor <;>
        simp [replicate, chunkList, Store.ofDocs, Store.put, Store.putWithRev,
          Store.getDocument, Store.listDocumentIds, Store.empty, lookupA,
          updateA, processDoc, writeStep, passesFilter, resolve, getField,
          mkResult, initState, hBA, hT, List.find?]
    · constructor
      · simp [replicate, chunkList, Store.ofDocs, Store.put, Store.putWithRev,
          Store.getDocument, Store.listDocumentIds, Store.empty, lookupA,
          updateA, processDoc, writeStep, passesFilter, resolve, getField,
          mkResult, initState, hbody, List.find?]
      · simp [replicate, chunkList, Store.ofDocs, Store.put, Store.putWithRev,
          Store.getDocument, Store.listDocumentIds, Store.empty, lookupA,
          updateA, processDoc, writeStep, passesFilter, resolve, getField,
          mkResult, initState, hbody, hlt, List.find?]

/-! ### Idempotence of replication under the fixed conflict strategies. -/

theorem nonCustom_some {opts : ReplicatorOptions} {cfg : ConflictResolver}
    (h : nonCustom opts) (he : opts.resolver = some cfg) : cfgFixed cfg := by
  simp only [nonCustom, he] at h
  exact h

theorem resolve_fixed_cases {cfg : ConflictResolver} {i e b : DocBody}
    (hf : cfgFixed cfg) (h : resolve cfg i e = Resolution.persist b) :
    b = i ∨ b = e := by
  rcases hs : cfg.strategy with _ | _ | _ | f
  · left
    rw [resolve, hs] at h
    injection h with h
    exact h.symm
  · rw [resolve, hs] at h
    simp at h
  · rw [resolve, hs] at h
    rcases h1 : getField i cfg.tsField with _ | ti <;>
      rcases h2 : getField e cfg.tsField with _ | te <;>
        rw [h1, h2] at h
    · left; injection h with h; exact h.symm
    · left; injection h with h; exact h.symm
    · left; injection h with h; exact h.symm
    · rcases hlt : cfg.lt ti te with _ | _
      · simp only [hlt, Bool.false_eq_true, if_false] at h
        left; injection h with h; exact h.symm
      · simp only [hlt, if_true] at h
        right; injection h with h; exact h.symm
  · rw [cfgFixed, hs] at hf
    exact hf.elim

/-- A fresh put can be read back. -/
theorem getDocument_put_of_none {s : Store} {id : DocId} (b : DocBody)
    (h : s.getDocument id = none) :
    (s.put id b).getDocument id = some ⟨b, 1⟩ := by
  rw [put_of_none b h]
  show lookupA (s.docs ++ [(id, ⟨b, 1⟩)]) id = some ⟨b, 1⟩
  rw [lookupA_append_of_none _ h, lookupA_cons, if_pos rfl]

/-- Re-processing a write whose outcome is already on the target neither
changes the target nor changes the number of documents it counts as
written. -/
theorem writeStep_stable (opts : ReplicatorOptions) (h : nonCustom opts)
    (st : RepState) (id : DocId) (body : DocBody) :
    ∃ δ, (writeStep opts st id body).docs_written = st.docs_written + δ ∧
      ∀ st2 : RepState,
        st2.target.getDocument id =
          (writeStep opts st id body).target.getDocument id →
        (writeStep opts st2 id body).target = st2.target ∧
        (writeStep opts st2 id body).docs_written = st2.docs_written + δ := by
  rcases hg : st.target.getDocument id with _ | ex
  · refine ⟨1, ?_, ?_⟩
    · simp [writeStep, hg]
    · intro st2 hst2
      simp only [writeStep, hg] at hst2
      have hput : ((st.target.putWithRev id body).1).getDocument id =
          some ⟨body, 1⟩ := getDocument_put_of_none body hg
      rw [hput] at hst2
      simp [writeStep, hst2]
  · by_cases hb : ex.body = body
    · refine ⟨1, ?_, ?_⟩
      · simp [writeStep, hg, hb]
      · intro st2 hst2
        simp only [writeStep, hg, if_pos hb] at hst2
        constructor <;> simp [writeStep, hst2, hb]
    · rcases hr : opts.resolver with _ | cfg
      · refine ⟨0, ?_, ?_⟩
        · simp [writeStep, hg, hb, hr]
        · intro st2 hst2
          simp [writeStep, hg, hb, hr] at hst2
          constructor <;> simp [writeStep, hst2, hb, hr]
      · have hcf := nonCustom_some h hr
        rcases hres : resolve cfg body ex.body with b | _ | e
        · refine ⟨1, ?_, ?_⟩
          · simp [writeStep, hg, hb, hr, hres]
          · intro st2 hst2
            simp only [writeStep, hg, if_neg hb, hr, hres] at hst2
            rcases getDocument_put_self st.target id b with ⟨r, hrr⟩
            rw [show (st.target.putWithRev id b).1 = st.target.put id b
              from rfl, hrr] at hst2
            by_cases hbb : b = body
            · subst hbb
              simp [writeStep, hst2]
            · rcases resolve_fixed_cases hcf hres with hcase | hcase
              · exact absurd hcase hbb
              · have hres2 : resolve cfg body b = Resolution.persist b := by
                  rw [hcase] at hres ⊢
                  exact hres
                have hput2 : (st2.target.putWithRev id b) = (st2.target, r) :=
                  putWithRev_of_same hst2 rfl
                constructor
                · simp [writeStep, hst2, hbb, hr, hres2, hput2]
                · simp [writeStep, hst2, hbb, hr, hres2, hput2]
        · refine ⟨0, ?_, ?_⟩
          · simp [writeStep, hg, hb, hr, hres]
          · intro st2 hst2
            simp only [writeStep, hg, if_neg hb, hr, hres] at hst2
            simp [writeStep, hst2, hb, hr, hres]
        · refine ⟨0, ?_, ?_⟩
          · simp [writeStep, hg, hb, hr, hres]
          · intro st2 hst2
            simp only [writeStep, hg, if_neg hb, hr, hres] at hst2
            simp [writeStep, hst2, hb, hr, hres]

theorem processDoc_stable (src : Store) (opts : ReplicatorOptions)
    (h : nonCustom opts) (st : RepState) (id : DocId) :
    ∃ δ, (processDoc src opts st id).docs_written = st.docs_written + δ ∧
      ∀ st2 : RepState,
        st2.target.getDocument id =
          (processDoc src opts st id).target.getDocument id →
        (processDoc src opts st2 id).target = st2.target ∧
        (processDoc src opts st2 id).docs_written = st2.docs_written + δ := by
  rcases hg : src.getDocument id with _ | d
  · refine ⟨0, by simp [processDoc, hg], ?_⟩
    intro st2 _
    constructor <;> simp [processDoc, hg]
  · rcases hf : passesFilter opts d.body with _ | _
    · refine ⟨0, by simp [processDoc, hg, hf], ?_⟩
      intro st2 _
      constructor <;> simp [processDoc, hg, hf]
    · rcases writeStep_stable opts h { st with docs_read := st.docs_read + 1 }
        id d.body with ⟨δ, hδ, hstab⟩
      refine ⟨δ, by simpa [processDoc, hg, hf] using hδ, ?_⟩
      intro st2 hst2
      have hst2' : ({ st2 with docs_read := st2.docs_read + 1 } :
          RepState).target.getDocument id =
          (writeStep opts { st with docs_read := st.docs_read + 1 } id
            d.body).target.getDocument id := by
        simpa [processDoc, hg, hf] using hst2
      rcases hstab { st2 with docs_read := st2.docs_read + 1 } hst2' with
        ⟨h1, h2⟩
      constructor
      · simpa [processDoc, hg, hf] using h1
      · simpa [processDoc, hg, hf] using h2

theorem writeStep_target_frame (opts : ReplicatorOptions) (st : RepState)
    {id id' : DocId} (body : DocBody) (h : id' ≠ id) :
    (writeStep opts st id body).target.getDocument id' =
      st.target.getDocument id' := by
  rcases hg : st.target.getDocument id with _ | ex
  · simp only [writeStep, hg]
    exact getDocument_put_other _ _ h
  · by_cases hb : ex.body = body
    · simp [writeStep, hg, hb]
    · rcases hr : opts.resolver with _ | cfg
      · simp [writeStep, hg, hb, hr]
      · rcases hres : resolve cfg body ex.body with b | _ | e
        · simp only [writeStep, hg, if_neg hb, hr, hres]
          exact getDocument_put_other _ _ h
        · simp [writeStep, hg, hb, hr, hres]
        · simp [writeStep, hg, hb, hr, hres]

theorem processDoc_target_frame (src : Store) (opts : ReplicatorOptions)
    (st : RepState) {i id : DocId} (h : i ≠ id) :
    (processDoc src opts st i).target.getDocument id =
      st.target.getDocument id := by
  rcases hg : src.getDocument i with _ | d
  · simp [processDoc, hg]
  · rcases hf : passesFilter opts d.body with _ | _
    · simp [processDoc, hg, hf]
    · simp only [processDoc, hg, hf]
      exact writeStep_target_frame _ _ _ (fun hc => h hc.symm)

theorem foldl_processDoc_target_frame (src : Store)
    (opts : ReplicatorOptions) :
    ∀ (ids : List DocId) (st : RepState) {id : DocId}, id ∉ ids →
      (ids.foldl (processDoc src opts) st).target.getDocument id =
        st.target.getDocument id := by
  intro ids
  induction ids with
  | nil => intro st id _; rfl
  | cons i rest ih =>
    intro st id hmem
    rw [List.foldl_cons, ih _ (fun hc => hmem (List.mem_cons_of_mem _ hc)),
      processDoc_target_frame _ _ _
        (fun hc => hmem (by rw [← hc]; exact List.mem_cons_self _ _))]

theorem foldl_processDoc_stable (src : Store) (opts : ReplicatorOptions)
    (h : nonCustom opts) :
    ∀ (ids : List DocId), ids.Nodup → ∀ st1 st2 : RepState,
      (∀ i ∈ ids, st2.target.getDocument i =
        (ids.foldl (processDoc src opts) st1).target.getDocument i) →
      (ids.foldl (processDoc src opts) st2).target = st2.target ∧
      (ids.foldl (processDoc src opts) st2).docs_written + st1.docs_written =
        (ids.foldl (processDoc src opts) st1).docs_written +
          st2.docs_written := by
  intro ids
  induction ids with
  | nil =>
    intro _ st1 st2 _
    refine ⟨rfl, ?_⟩
    rw [List.foldl_nil, List.foldl_nil]
    omega
  | cons id rest ih =>
    intro hnd st1 st2 hcond
    rw [List.nodup_cons] at hnd
    rcases processDoc_stable src opts h st1 id with ⟨δ, hδ, hstab⟩
    have hfr : (rest.foldl (processDoc src opts)
        (processDoc src opts st1 id)).target.getDocument id =
        (processDoc src opts st1 id).target.getDocument id :=
      foldl_processDoc_target_frame src opts rest _ hnd.1
    have hcid : st2.target.getDocument id =
        (processDoc src opts st1 id).target.getDocument id := by
      rw [← hfr]
      exact hcond id (List.mem_cons_self _ _)
    rcases hstab st2 hcid with ⟨ht2, hw2⟩
    have hcond' : ∀ i ∈ rest,
        (processDoc src opts st2 id).target.getDocument i =
        (rest.foldl (processDoc src opts)
          (processDoc src opts st1 id)).target.getDocument i := by
      intro i hi
      rw [ht2]
      exact hcond i (List.mem_cons_of_mem _ hi)
    rcases ih hnd.2 (processDoc src opts st1 id)
      (processDoc src opts st2 id) hcond' with ⟨hT, hW⟩
    constructor
    · rw [List.foldl_cons, hT, ht2]
    · rw [List.foldl_cons, List.foldl_cons]
      omega

theorem writeStep_keys_nodup (opts : ReplicatorOptions) (st : RepState)
    (id : DocId) (body : DocBody)
    (h : (st.target.docs.map (fun p => p.1)).Nodup) :
    ((writeStep opts st id body).target.docs.map (fun p => p.1)).Nodup := by
  rcases hg : st.target.getDocument id with _ | ex
  · simp only [writeStep, hg]
    exact put_keys_nodup _ _ h
  · by_cases hb : ex.body = body
    · simpa [writeStep, hg, hb] using h
    · rcases hr : opts.resolver with _ | cfg
      · simpa [writeStep, hg, hb, hr] using h
      · rcases hres : resolve cfg body ex.body with b | _ | e
        · simp only [writeStep, hg, if_neg hb, hr, hres]
          exact put_keys_nodup _ _ h
        · simpa [writeStep, hg, hb, hr, hres] using h
        · simpa [writeStep, hg, hb, hr, hres] using h

theorem foldl_processDoc_keys_nodup (src : Store)
    (opts : ReplicatorOptions) :
    ∀ (ids : List DocId) (st : RepState),
      (st.target.docs.map (fun p => p.1)).Nodup →
      ((ids.foldl (processDoc src opts) st).target.docs.map
        (fun p => p.1)).Nodup := by
  intro ids
  induction ids with
  | nil => intro st h; exact h
  | cons i rest ih =>
    intro st h
    rw [List.foldl_cons]
    apply ih
    rcases hg : src.getDocument i with _ | d
    · simpa [processDoc, hg] using h
    · rcases hf : passesFilter opts d.body with _ | _
      · simpa [processDoc, hg, hf] using h
      · simp only [processDoc, hg, hf]
        exact writeStep_keys_nodup _ _ _ _ h

/-- C3 counterexample: with a caller-supplied `CUSTOM` conflict resolver the
claim fails — replaying the same `replicate()` call against the unchanged
source and the already-replicated target can yield a different
`docsWritten` count on the second run (here the custom function persists a
new body on the first run, then skips on the second). -/
theorem replicate_twice_custom_differs :
    (replicate (Store.ofDocs [("d", [("v", Val.num 0)])])
        (replicate (Store.ofDocs [("d", [("v", Val.num 0)])])
          (Store.ofDocs [("d", [("v", Val.num 1)])])
          ⟨10, none, some ⟨ConflictStrategy.custom (fun _ e =>
            if e = [("v", Val.num 1)] then Resolution.persist
              [("v", Val.num 2)] else Resolution.skip), "t", Val.ltb⟩⟩).1
        ⟨10, none, some ⟨ConflictStrategy.custom (fun _ e =>
          if e = [("v", Val.num 1)] then Resolution.persist
            [("v", Val.num 2)] else Resolution.skip), "t",
          Val.ltb⟩⟩).2.stats.docs_written ≠
      (replicate (Store.ofDocs [("d", [("v", Val.num 0)])])
        (Store.ofDocs [("d", [("v", Val.num 1)])])
        ⟨10, none, some ⟨ConflictStrategy.custom (fun _ e =>
          if e = [("v", Val.num 1)] then Resolution.persist
            [("v", Val.num 2)] else Resolution.skip), "t",
          Val.ltb⟩⟩).2.stats.docs_written := by
  simp only [replicate, foldl_chunkList, mkResult]
  decide

/-- C3 (amended): for every source and target and every `replicate()` call
whose conflict policy is not a caller-supplied `CUSTOM` function, running the
same call twice with no intervening external writes yields the same
`ReplicationStats.docsWritten` on the second run as on the first, leaves the
target exactly as the first run left it, and leaves no duplicate documents on
the target. -/
theorem replicate_idempotent_nonCustom (src tgt : Store)
    (opts : ReplicatorOptions) (h : nonCustom opts)
    (hsrc : src.listDocumentIds.Nodup)
    (htgt : (tgt.docs.map (fun p => p.1)).Nodup) :
    (replicate src (replicate src tgt opts).1 opts).2.stats.docs_written =
      (replicate src tgt opts).2.stats.docs_written ∧
    (replicate src (replicate src tgt opts).1 opts).1 =
      (replicate src tgt opts).1 ∧
    ((replicate src (replicate src tgt opts).1 opts).1.docs.map
      (fun p => p.1)).Nodup := by
  have hmain := foldl_processDoc_stable src opts h src.listDocumentIds hsrc
    (initState tgt)
    (initState ((src.listDocumentIds.foldl (processDoc src opts)
      (initState tgt)).target))
    (fun i _ => rfl)
  simp only [initState] at hmain
  simp only [replicate, foldl_chunkList, mkResult, initState]
  refine ⟨?_, hmain.1, ?_⟩
  · have hsum := hmain.2
    omega
  · rw [hmain.1]
    have hpres := foldl_processDoc_keys_nodup src opts src.listDocumentIds
      (initState tgt) htgt
    simpa [initState] using hpres

/-- Concrete instance of the bidirectional convergence theorem: five
documents on A, three on B, disjoint ids. -/
theorem bidirectional_pass_converges_witness :
    ((runPass (BidirState.start (Store.ofDocs [("a0", []), ("a1", []), ("a2", []), ("a3", []), ("a4", [])]) (Store.ofDocs [("b0", []), ("b1", []), ("b2", [])])) defaultOpts).1.a.docs.map (fun q => (q.1, q.2.body)) = [("a0", []), ("a1", []), ("a2", []), ("a3", []), ("a4", [])] ++ [("b0", []), ("b1", []), ("b2", [])]) ∧
    ((runPass (BidirState.start (Store.ofDocs [("a0", []), ("a1", []), ("a2", []), ("a3", []), ("a4", [])]) (Store.ofDocs [("b0", []), ("b1", []), ("b2", [])])) defaultOpts).1.b.docs.map (fun q => (q.1, q.2.body)) = [("b0", []), ("b1", []), ("b2", [])] ++ [("a0", []), ("a1", []), ("a2", []), ("a3", []), ("a4", [])]) ∧
    (runPass (BidirState.start (Store.ofDocs [("a0", []), ("a1", []), ("a2", []), ("a3", []), ("a4", [])]) (Store.ofDocs [("b0", []), ("b1", []), ("b2", [])])) defaultOpts).1.a.docs.length = 8 ∧
    (runPass (BidirState.start (Store.ofDocs [("a0", []), ("a1", []), ("a2", []), ("a3", []), ("a4", [])]) (Store.ofDocs [("b0", []), ("b1", []), ("b2", [])])) defaultOpts).1.b.docs.length = 8 ∧
    (runPass (BidirState.start (Store.ofDocs [("a0", []), ("a1", []), ("a2", []), ("a3", []), ("a4", [])]) (Store.ofDocs [("b0", []), ("b1", []), ("b2", [])])) defaultOpts).2.1.stats.docs_written = 5 ∧
    (runPass (BidirState.start (Store.ofDocs [("a0", []), ("a1", []), ("a2", []), ("a3", []), ("a4", [])]) (Store.ofDocs [("b0", []), ("b1", []), ("b2", [])])) defaultOpts).2.2.stats.docs_written = 3 ∧
    (runPass (runPass (BidirState.start (Store.ofDocs [("a0", []), ("a1", []), ("a2", []), ("a3", []), ("a4", [])]) (Store.ofDocs [("b0", []), ("b1", []), ("b2", [])])) defaultOpts).1 defaultOpts).2.1.stats.docs_written = 0 ∧
    (runPass (runPass (BidirState.start (Store.ofDocs [("a0", []), ("a1", []), ("a2", []), ("a3", []), ("a4", [])]) (Store.ofDocs [("b0", []), ("b1", []), ("b2", [])])) defaultOpts).1 defaultOpts).2.2.stats.docs_written = 0 :=
  bidirectional_pass_converges_and_second_pass_is_silent
    [("a0", []), ("a1", []), ("a2", []), ("a3", []), ("a4", [])] [("b0", []), ("b1", []), ("b2", [])] rfl rfl (by decide)

/-- Concrete instance of the amended idempotence theorem: one document on
each side, conflicting bodies, no resolver configured. -/
theorem replicate_idempotent_witness :
    (replicate (Store.ofDocs [("d", [("v", Val.num 0)])])
        (replicate (Store.ofDocs [("d", [("v", Val.num 0)])])
          (Store.ofDocs [("e", [("v", Val.num 1)])])
          ⟨10, none, none⟩).1 ⟨10, none, none⟩).2.stats.docs_written =
      (replicate (Store.ofDocs [("d", [("v", Val.num 0)])])
        (Store.ofDocs [("e", [("v", Val.num 1)])])
        ⟨10, none, none⟩).2.stats.docs_written ∧
    (replicate (Store.ofDocs [("d", [("v", Val.num 0)])])
        (replicate (Store.ofDocs [("d", [("v", Val.num 0)])])
          (Store.ofDocs [("e", [("v", Val.num 1)])])
          ⟨10, none, none⟩).1 ⟨10, none, none⟩).1 =
      (replicate (Store.ofDocs [("d", [("v", Val.num 0)])])
        (Store.ofDocs [("e", [("v", Val.num 1)])]) ⟨10, none, none⟩).1 ∧
    ((replicate (Store.ofDocs [("d", [("v", Val.num 0)])])
        (replicate (Store.ofDocs [("d", [("v", Val.num 0)])])
          (Store.ofDocs [("e", [("v", Val.num 1)])])
          ⟨10, none, none⟩).1 ⟨10, none, none⟩).1.docs.map
      (fun p => p.1)).Nodup :=
  replicate_idempotent_nonCustom
    (Store.ofDocs [("d", [("v", Val.num 0)])])
    (Store.ofDocs [("e", [("v", Val.num 1)])])
    ⟨10, none, none⟩ trivial (by decide) (by decide)

/-- Concrete instance of the pull-window theorem: three changes, window
`since = 1`, `limit = 2`. -/
theorem get_changes_window_witness :
    ((ChangesListener.mk (Store.ofDocs
        [("x", []), ("y", []), ("z", [])])).get_changes 1 2).results =
      (Store.ofDocs [("x", []), ("y", []), ("z", [])]).changes.filter
        (fun c => decide (1 < c.seq ∧ c.seq ≤ 1 + 2)) ∧
    ((ChangesListener.mk (Store.ofDocs
        [("x", []), ("y", []), ("z", [])])).get_changes 1 2).results.length
      = 2 ∧
    List.Pairwise (fun c1 c2 : Change => c1.seq ≤ c2.seq)
      ((ChangesListener.mk (Store.ofDocs
        [("x", []), ("y", []), ("z", [])])).get_changes 1 2).results ∧
    ((ChangesListener.mk (Store.ofDocs
        [("x", []), ("y", []), ("z", [])])).get_changes 1 2).last_seq =
      1 + 2 :=
  get_changes_returns_exact_window
    (Store.ofDocs [("x", []), ("y", []), ("z", [])])
    (by unfold ChangesWF; decide) 1 2 (by decide)

/-- Concrete instance of the 10-document round trip. -/
theorem replicate_ten_docs_witness :
    (replicate (Store.ofDocs [("d1", []), ("d2", []), ("d3", []),
        ("d4", []), ("d5", []), ("d6", []), ("d7", []), ("d8", []),
        ("d9", []), ("d10", [])]) Store.empty
        ⟨3, none, none⟩).2.stats.docs_read = 10 ∧
    (replicate (Store.ofDocs [("d1", []), ("d2", []), ("d3", []),
        ("d4", []), ("d5", []), ("d6", []), ("d7", []), ("d8", []),
        ("d9", []), ("d10", [])]) Store.empty
        ⟨3, none, none⟩).2.stats.docs_written = 10 ∧
    (replicate (Store.ofDocs [("d1", []), ("d2", []), ("d3", []),
        ("d4", []), ("d5", []), ("d6", []), ("d7", []), ("d8", []),
        ("d9", []), ("d10", [])]) Store.empty
        ⟨3, none, none⟩).2.stats.doc_write_failures = 0 ∧
    (replicate (Store.ofDocs [("d1", []), ("d2", []), ("d3", []),
        ("d4", []), ("d5", []), ("d6", []), ("d7", []), ("d8", []),
        ("d9", []), ("d10", [])]) Store.empty ⟨3, none, none⟩).1.docs =
      (Store.ofDocs [("d1", []), ("d2", []), ("d3", []), ("d4", []),
        ("d5", []), ("d6", []), ("d7", []), ("d8", []), ("d9", []),
        ("d10", [])]).docs :=
  replicate_ten_fresh_docs_roundtrip
    [("d1", []), ("d2", []), ("d3", []), ("d4", []), ("d5", []),
     ("d6", []), ("d7", []), ("d8", []), ("d9", []), ("d10", [])]
    rfl (by decide)

/-- Concrete instance of the listener lifecycle theorem: one delivery, then
cancellation, background exit, a returned stop, and a repeated stop call. -/
theorem listener_stop_witness :
    (∀ c, LAct.deliver c ∉ ([LAct.stopBegin] : List LAct)) ∧
    (⟨false, true, 1⟩ : ListenerState).running = false ∧
    runTrace ListenerState.started
      (([LAct.deliver ⟨1, "x", 1, false, none⟩, LAct.stopBegin,
        LAct.bgExit] ++ LAct.stopEnd :: [LAct.stopBegin]) ++
        [LAct.stopBegin, LAct.stopEnd]) = some ⟨false, true, 1⟩ ∧
    (∀ sm, runTrace ListenerState.started
        ([LAct.deliver ⟨1, "x", 1, false, none⟩, LAct.stopBegin,
          LAct.bgExit] ++ [LAct.stopEnd]) = some sm →
      sm.callbackCount = (⟨false, true, 1⟩ : ListenerState).callbackCount) :=
  listener_stop_is_final_and_idempotent
    [LAct.deliver ⟨1, "x", 1, false, none⟩, LAct.stopBegin, LAct.bgExit]
    [LAct.stopBegin] ⟨false, true, 1⟩ (by decide)

end CouchRep
